import Mathlib

/-!
Verification development for the financial-tracker repository.

The file shallowly embeds the parts of the repository that the claims
talk about:

* `src/src/core/utils.py` — billing-cycle resolver (`get_cycle_start`,
  `get_current_and_previous_cycle_dates`) over a proleptic Gregorian
  calendar with integer years (Python `datetime.date` restricted to its
  valid month/day shape; `dateutil.relativedelta` month arithmetic clamps
  the day to the end of the target month).
* `src/src/storage/repository.py` — the recursive installment-expansion
  CTE shared by the aggregate-sum query and the itemized-listing queries.
* `src/src/core/parser.py` and the historical copy `src/bot/app.py` —
  string parsing (`br_to_decimal`, `titleize_pt`, `parse_message`) over
  lists of characters, with Python `Decimal` modelled as exact rationals
  quantized to cents by round-half-even.
-/

/-! ## Calendar model (Python `datetime.date` / `dateutil.relativedelta`) -/

/-- A calendar date: year, month, day, all integers.  A date is meaningful
when it satisfies `Date.Valid` below. -/
structure Date where
  y : Int
  m : Int
  d : Int
deriving DecidableEq

/-- Lexicographic strict order on dates, as Python compares `date` values. -/
@[reducible] def Date.lt (a b : Date) : Prop :=
  a.y < b.y ∨ (a.y = b.y ∧ (a.m < b.m ∨ (a.m = b.m ∧ a.d < b.d)))

/-- Lexicographic order on dates, as Python compares `date` values. -/
@[reducible] def Date.le (a b : Date) : Prop :=
  a.y < b.y ∨ (a.y = b.y ∧ (a.m < b.m ∨ (a.m = b.m ∧ a.d ≤ b.d)))

instance : LT Date := ⟨Date.lt⟩

instance : LE Date := ⟨Date.le⟩

instance (a b : Date) : Decidable (a < b) :=
  inferInstanceAs (Decidable (Date.lt a b))

instance (a b : Date) : Decidable (a ≤ b) :=
  inferInstanceAs (Decidable (Date.le a b))

/-- Gregorian leap-year rule. -/
def isLeap (y : Int) : Prop := (y % 4 = 0 ∧ ¬ y % 100 = 0) ∨ y % 400 = 0

instance (y : Int) : Decidable (isLeap y) :=
  inferInstanceAs (Decidable ((y % 4 = 0 ∧ ¬ y % 100 = 0) ∨ y % 400 = 0))

/-- Number of days of month `m` of year `y`. -/
def daysInMonth (y m : Int) : Int :=
  if m = 2 then (if isLeap y then 29 else 28)
  else if m = 4 ∨ m = 6 ∨ m = 9 ∨ m = 11 then 30
  else 31

/-- A date is valid when its month and day are in range (years are
unbounded integers in this model). -/
def Date.Valid (t : Date) : Prop :=
  1 ≤ t.m ∧ t.m ≤ 12 ∧ 1 ≤ t.d ∧ t.d ≤ daysInMonth t.y t.m

instance (t : Date) : Decidable t.Valid :=
  inferInstanceAs (Decidable (1 ≤ t.m ∧ t.m ≤ 12 ∧ 1 ≤ t.d ∧ t.d ≤ daysInMonth t.y t.m))

/-- The year range Python's `datetime.date` can represent
(`datetime.MINYEAR = 1` to `datetime.MAXYEAR = 9999`); any operation whose
resulting date falls outside this range raises `OverflowError` at runtime.
The model's years are unbounded, so a computed date outside this range
marks exactly the inputs on which the Python program raises. -/
def pythonRepresentable (t : Date) : Prop := 1 ≤ t.y ∧ t.y ≤ 9999

instance (t : Date) : Decidable (pythonRepresentable t) :=
  inferInstanceAs (Decidable (1 ≤ t.y ∧ t.y ≤ 9999))

/-- Year/month pair following the given one. -/
def nextYM (y m : Int) : Int × Int := if m = 12 then (y + 1, 1) else (y, m + 1)

/-- Year/month pair preceding the given one. -/
def prevYM (y m : Int) : Int × Int := if m = 1 then (y - 1, 12) else (y, m - 1)

/-- Model of `d + relativedelta(months=1)` (also of SQL
`ts + INTERVAL '1 month'` on the date part): advance one month, clamping
the day to the length of the target month. -/
def addMonths1 (t : Date) : Date :=
  ⟨(nextYM t.y t.m).1, (nextYM t.y t.m).2,
    min t.d (daysInMonth (nextYM t.y t.m).1 (nextYM t.y t.m).2)⟩

/-- Model of `d - relativedelta(months=1)`: go back one month, clamping the
day to the length of the target month. -/
def subMonths1 (t : Date) : Date :=
  ⟨(prevYM t.y t.m).1, (prevYM t.y t.m).2,
    min t.d (daysInMonth (prevYM t.y t.m).1 (prevYM t.y t.m).2)⟩

/-- Model of `d + relativedelta(days=1)` / `d + timedelta(days=1)`. -/
def nextDay (t : Date) : Date :=
  if t.d < daysInMonth t.y t.m then ⟨t.y, t.m, t.d + 1⟩
  else if t.m < 12 then ⟨t.y, t.m + 1, 1⟩
  else ⟨t.y + 1, 1, 1⟩

/-- Model of `d - relativedelta(days=1)` / `d - timedelta(days=1)`. -/
def prevDay (t : Date) : Date :=
  if 1 < t.d then ⟨t.y, t.m, t.d - 1⟩
  else if 1 < t.m then ⟨t.y, t.m - 1, daysInMonth t.y (t.m - 1)⟩
  else ⟨t.y - 1, 12, 31⟩

/-! ## Billing-cycle configuration (`src/src/core/config.py`) -/

/-- `CYCLE_RESET_DAY_OLD = 4`. -/
def CYCLE_RESET_DAY_OLD : Int := 4

/-- `CYCLE_RESET_DAY_NEW = 17`. -/
def CYCLE_RESET_DAY_NEW : Int := 17

/-- `CYCLE_CHANGE_DATE = date(2025, 10, 4)`. -/
def CYCLE_CHANGE_DATE : Date := ⟨2025, 10, 4⟩

/-- `CYCLE_TRANSITION_END_DATE = date(2025, 11, 16)`. -/
def CYCLE_TRANSITION_END_DATE : Date := ⟨2025, 11, 16⟩

/-! ## Billing-cycle resolver (`src/src/core/utils.py`) -/

/-- Embedding of `get_cycle_start` from `src/src/core/utils.py`. -/
def getCycleStart (today : Date) : Date :=
  if CYCLE_CHANGE_DATE ≤ today ∧ today ≤ CYCLE_TRANSITION_END_DATE then
    CYCLE_CHANGE_DATE
  else
    let cycleDay : Int :=
      if CYCLE_TRANSITION_END_DATE < today then CYCLE_RESET_DAY_NEW
      else CYCLE_RESET_DAY_OLD
    if cycleDay ≤ today.d then ⟨today.y, today.m, cycleDay⟩
    else
      let prevMonthLast := prevDay ⟨today.y, today.m, 1⟩
      ⟨prevMonthLast.y, prevMonthLast.m, cycleDay⟩

/-- A billing cycle; `stop` is the Python dictionary entry named "end"
(`end` is reserved in Lean). -/
structure BillingCycle where
  start : Date
  stop : Date
deriving DecidableEq

/-- The value returned by `get_current_and_previous_cycle_dates`. -/
structure CyclePair where
  current : BillingCycle
  previous : BillingCycle
deriving DecidableEq

/-- Embedding of `get_current_and_previous_cycle_dates` from
`src/src/core/utils.py`. -/
def getCurrentAndPreviousCycleDates (today : Date) : CyclePair :=
  if CYCLE_CHANGE_DATE ≤ today ∧ today ≤ CYCLE_TRANSITION_END_DATE then
    { current := ⟨CYCLE_CHANGE_DATE, CYCLE_TRANSITION_END_DATE⟩,
      previous := ⟨nextDay (subMonths1 (prevDay CYCLE_CHANGE_DATE)),
                   prevDay CYCLE_CHANGE_DATE⟩ }
  else if CYCLE_TRANSITION_END_DATE < today then
    let cycleDay := CYCLE_RESET_DAY_NEW
    let currentEnd :=
      if today.d < cycleDay then prevDay ⟨today.y, today.m, cycleDay⟩
      else prevDay (addMonths1 ⟨today.y, today.m, cycleDay⟩)
    let currentStart := subMonths1 (nextDay currentEnd)
    if currentStart = nextDay CYCLE_TRANSITION_END_DATE then
      { current := ⟨currentStart, currentEnd⟩,
        previous := ⟨CYCLE_CHANGE_DATE, CYCLE_TRANSITION_END_DATE⟩ }
    else
      { current := ⟨currentStart, currentEnd⟩,
        previous := ⟨subMonths1 currentStart, subMonths1 currentEnd⟩ }
  else
    let cycleDay := CYCLE_RESET_DAY_OLD
    let currentEnd :=
      if today.d < cycleDay then prevDay ⟨today.y, today.m, cycleDay⟩
      else prevDay (addMonths1 ⟨today.y, today.m, cycleDay⟩)
    let currentStart := subMonths1 (nextDay currentEnd)
    { current := ⟨currentStart, currentEnd⟩,
      previous := ⟨subMonths1 currentStart, subMonths1 currentEnd⟩ }

/-! ## Installment expansion (`src/src/storage/repository.py`)

The three SQL queries `get_total_spent_in_period`,
`get_all_expenses_as_dataframe` and `get_expenses_in_range_as_dataframe`
contain a textually identical recursive CTE `installment_cycles`; only the
passthrough columns differ.  It is embedded once below.  Amounts are
modelled as exact rationals (PostgreSQL `numeric` division carries at
least 16 fractional digits; the reconciliation claim is stated with the
same one-minor-unit tolerance). -/

/-- A point in time: a calendar date plus an opaque time-of-day payload
(the SQL only ever copies the time-of-day around). -/
structure Timestamp where
  date : Date
  tod : Int
deriving DecidableEq

/-- One step of the recursive CTE: the `CASE` expression computing the next
`current_ts`.  `WHEN current_ts::date >= DATE '2025-10-04' AND
current_ts::date < DATE '2025-11-17' THEN DATE '2025-11-17' +
current_ts::time ELSE current_ts + INTERVAL '1 month'`. -/
def stepTs (ts : Timestamp) : Timestamp :=
  if ⟨2025, 10, 4⟩ ≤ ts.date ∧ ts.date < (⟨2025, 11, 17⟩ : Date) then
    ⟨⟨2025, 11, 17⟩, ts.tod⟩
  else
    ⟨addMonths1 ts.date, ts.tod⟩

/-- One row of the recursive CTE `installment_cycles` (the columns every
query uses: the per-installment amount, the installment number, and the
placement timestamp `current_ts`). -/
structure InstallmentRow where
  amount : ℚ
  number : ℕ
  ts : Timestamp
deriving DecidableEq

/-- Embedding of the recursive CTE `installment_cycles` for one source
record: the base row carries `amount / installments`, number 1 and the
record timestamp, and the recursive member adds a row with the next number
and `stepTs` of the previous timestamp while `installment_number <
installments`.  `j` is the number of the row being produced. -/
def installmentCycles (a : ℚ) (n : ℕ) (j : ℕ) (cur : Timestamp) : List InstallmentRow :=
  ⟨a / n, j, cur⟩ :: (if j < n then installmentCycles a n (j + 1) (stepTs cur) else [])
termination_by n - j

/-- Full expansion of a record `(amount, timestamp, installments)` with
`installments > 1`, as produced by the CTE (the base member starts at
installment number 1). -/
def installmentExpansion (a : ℚ) (ts : Timestamp) (n : ℕ) : List InstallmentRow :=
  installmentCycles a n 1 ts

/-- Structural companion of `installmentCycles` (`m` counts the rows still
to be produced after the current one); used to evaluate and reason about
the well-founded definition. -/
def icAux (a : ℚ) (n : ℕ) : ℕ → ℕ → Timestamp → List InstallmentRow
  | 0, j, cur => [⟨a / n, j, cur⟩]
  | m + 1, j, cur => ⟨a / n, j, cur⟩ :: icAux a n m (j + 1) (stepTs cur)

/-- The itemized queries post-process each CTE row in their outer `SELECT`,
rewriting the description to `description || ' (' || installment_number ||
'/' || installments || ')'`; the row data itself is unchanged.  This is
that projection for one source description. -/
def itemizedRows (desc : List Char) (a : ℚ) (ts : Timestamp) (n : ℕ) :
    List (List Char × InstallmentRow) :=
  (installmentExpansion a ts n).map fun r =>
    (desc ++ (' ' :: '(' :: Nat.toDigits 10 r.number) ++ ('/' :: Nat.toDigits 10 n) ++ [')'], r)

/-! ## Python string primitives

Strings are modelled as `List Char`.  Whitespace, case folding and accent
folding cover ASCII plus the accented Latin letters used by the
configuration tables; this is the character repertoire the parser's
domain actually uses. -/

/-- Python whitespace (`str.strip`, regex `\s`), ASCII part. -/
def pyIsSpace (c : Char) : Bool :=
  c = ' ' || c = '\t' || c = '\n' || c = '\x0b' || c = '\x0c' || c = '\r'

/-- Model of Python `str.strip()`. -/
def pyStrip (l : List Char) : List Char :=
  ((l.dropWhile pyIsSpace).reverse.dropWhile pyIsSpace).reverse

/-- Model of Python `str.lower()` on one character. -/
def pyLower : Char → Char
  | 'A' => 'a' | 'B' => 'b' | 'C' => 'c' | 'D' => 'd' | 'E' => 'e' | 'F' => 'f'
  | 'G' => 'g' | 'H' => 'h' | 'I' => 'i' | 'J' => 'j' | 'K' => 'k' | 'L' => 'l'
  | 'M' => 'm' | 'N' => 'n' | 'O' => 'o' | 'P' => 'p' | 'Q' => 'q' | 'R' => 'r'
  | 'S' => 's' | 'T' => 't' | 'U' => 'u' | 'V' => 'v' | 'W' => 'w' | 'X' => 'x'
  | 'Y' => 'y' | 'Z' => 'z'
  | 'Á' => 'á' | 'À' => 'à' | 'Â' => 'â' | 'Ã' => 'ã' | 'É' => 'é' | 'Ê' => 'ê'
  | 'Í' => 'í' | 'Ó' => 'ó' | 'Ô' => 'ô' | 'Õ' => 'õ' | 'Ú' => 'ú' | 'Ç' => 'ç'
  | c => c

/-- Model of Python uppercasing of one character (used by `str.capitalize`). -/
def pyUpper : Char → Char
  | 'a' => 'A' | 'b' => 'B' | 'c' => 'C' | 'd' => 'D' | 'e' => 'E' | 'f' => 'F'
  | 'g' => 'G' | 'h' => 'H' | 'i' => 'I' | 'j' => 'J' | 'k' => 'K' | 'l' => 'L'
  | 'm' => 'M' | 'n' => 'N' | 'o' => 'O' | 'p' => 'P' | 'q' => 'Q' | 'r' => 'R'
  | 's' => 'S' | 't' => 'T' | 'u' => 'U' | 'v' => 'V' | 'w' => 'W' | 'x' => 'X'
  | 'y' => 'Y' | 'z' => 'Z'
  | 'á' => 'Á' | 'à' => 'À' | 'â' => 'Â' | 'ã' => 'Ã' | 'é' => 'É' | 'ê' => 'Ê'
  | 'í' => 'Í' | 'ó' => 'Ó' | 'ô' => 'Ô' | 'õ' => 'Õ' | 'ú' => 'Ú' | 'ç' => 'Ç'
  | c => c

/-- Model of Python `str.capitalize()`: first character uppercased, the rest
lowercased. -/
def pyCapitalize : List Char → List Char
  | [] => []
  | c :: rest => pyUpper c :: rest.map pyLower

/-- Accent folding of one character: the effect of NFKD decomposition
followed by removal of combining marks, for the precomposed Latin letters
in the parser's repertoire (case preserved). -/
def accentFold : Char → Char
  | 'á' => 'a' | 'à' => 'a' | 'â' => 'a' | 'ã' => 'a'
  | 'é' => 'e' | 'ê' => 'e' | 'í' => 'i'
  | 'ó' => 'o' | 'ô' => 'o' | 'õ' => 'o' | 'ú' => 'u' | 'ç' => 'c'
  | 'Á' => 'A' | 'À' => 'A' | 'Â' => 'A' | 'Ã' => 'A'
  | 'É' => 'E' | 'Ê' => 'E' | 'Í' => 'I'
  | 'Ó' => 'O' | 'Ô' => 'O' | 'Õ' => 'O' | 'Ú' => 'U' | 'Ç' => 'C'
  | c => c

/-- Model of `re.sub(r"\s+", " ", s)`: every whitespace run becomes one
space (`prevSpace` records whether the previous character was whitespace). -/
def collapseWsAux (prevSpace : Bool) : List Char → List Char
  | [] => []
  | c :: rest =>
    if pyIsSpace c then
      if prevSpace then collapseWsAux true rest
      else ' ' :: collapseWsAux true rest
    else c :: collapseWsAux false rest

/-- Model of `re.sub(r"\s+", " ", s)`. -/
def collapseWs (l : List Char) : List Char := collapseWsAux false l

/-- Embedding of `config._strip_accents_lower`: accent folding, whitespace
collapsing, strip, lowercase. -/
def stripAccentsLower (s : List Char) : List Char :=
  (pyStrip (collapseWs (s.map accentFold))).map pyLower

/-! ## Title-casing (`titleize_pt`, `src/src/core/parser.py`) -/

/-- `LOWER_WORDS` from `src/src/core/config.py`. -/
def LOWER_WORDS : List (List Char) :=
  ["de".toList, "da".toList, "do".toList, "das".toList, "dos".toList,
   "e".toList, "em".toList, "no".toList, "na".toList, "nos".toList,
   "nas".toList, "para".toList, "por".toList, "com".toList, "ao".toList,
   "a".toList, "à".toList, "às".toList, "o".toList, "os".toList,
   "um".toList, "uma".toList, "umas".toList, "uns".toList]

/-- Model of `re.split(r"(\s+|-)", s)`: splits on whitespace runs and single
hyphens, keeping the separators as tokens (the captured group), with empty
fields between adjacent separators and at the ends.  The Boolean is true
while a whitespace run is being accumulated; `cur` holds the current token
reversed. -/
def skAux (mode : Bool) (cur : List Char) : List Char → List (List Char)
  | [] => if mode then [cur.reverse, []] else [cur.reverse]
  | c :: rest =>
    if mode then
      if pyIsSpace c then skAux true (c :: cur) rest
      else if c = '-' then cur.reverse :: [] :: ['-'] :: skAux false [] rest
      else cur.reverse :: skAux false [c] rest
    else
      if c = '-' then cur.reverse :: ['-'] :: skAux false [] rest
      else if pyIsSpace c then cur.reverse :: skAux true [c] rest
      else skAux false (c :: cur) rest

/-- Model of `re.split(r"(\s+|-)", s)`. -/
def splitKeep (l : List Char) : List (List Char) := skAux false [] l

/-- Test `re.fullmatch(r"\s+|-", token)`. -/
def fullmatchWsOrHyphen (tok : List Char) : Bool :=
  (decide (tok ≠ []) && tok.all pyIsSpace) || tok = ['-']

/-- The loop guard `if not token.strip() or re.fullmatch(r"\s+|-", token)`
of `titleize_pt`: true for blank tokens and for the separator tokens the
split keeps. -/
def isSepTok (tok : List Char) : Bool :=
  (pyStrip tok).isEmpty || fullmatchWsOrHyphen tok

/-- The token loop of `titleize_pt`: separators and blank tokens are passed
through (leaving `is_first` untouched); other tokens are capitalized when
first or not a connective, and `is_first` is cleared. -/
def titleizeGo (first : Bool) : List (List Char) → List (List Char)
  | [] => []
  | tok :: rest =>
    if isSepTok tok then
      tok :: titleizeGo first rest
    else if first || ! LOWER_WORDS.contains tok then
      pyCapitalize tok :: titleizeGo false rest
    else
      tok :: titleizeGo false rest

/-- Embedding of `titleize_pt` from `src/src/core/parser.py`: split the
stripped, lowercased input on whitespace/hyphens (keeping separators),
capitalize according to the connective rules, and rejoin. -/
def titleize_pt (s : List Char) : List Char :=
  (titleizeGo true (splitKeep ((pyStrip s).map pyLower))).flatten

/-! ## Python `Decimal` and the value parsers -/

/-- Result of the `Decimal` constructor: a finite value `mant · 10 ^ exp`
(coefficient and exponent, exactly Python's `Decimal` representation) or a
special value (`NaN`, `sNaN`, `Infinity` — `quantize` raises on all of
them). -/
inductive PyDec where
  | fin (mant : ℤ) (exp : ℤ)
  | special
deriving DecidableEq

/-- Numeric value of a list of ASCII digits. -/
def digitsVal (l : List Char) : ℕ :=
  l.foldl (fun a c => 10 * a + (c.toNat - 48)) 0

/-- Model of the Python `Decimal(str)` constructor on the ASCII numeric
grammar: optional surrounding whitespace, optional sign, either a numeric
literal `digits [. digits] [eE [sign] digits]` (at least one digit before
the exponent) or a special value (`inf`, `infinity`, `nan`/`snan` with an
optional digit payload, case-insensitive).  Anything else fails. -/
def pyDecimal (l0 : List Char) : Option PyDec :=
  let l := pyStrip l0
  let sgn : Bool × List Char :=
    match l with
    | '+' :: r => (false, r)
    | '-' :: r => (true, r)
    | r => (false, r)
  let neg := sgn.1
  let l1 := sgn.2
  let low := l1.map pyLower
  if low = "inf".toList ∨ low = "infinity".toList then some .special
  else if low.take 3 = "nan".toList ∧ (low.drop 3).all Char.isDigit then some .special
  else if low.take 4 = "snan".toList ∧ (low.drop 4).all Char.isDigit then some .special
  else
    let ip := l1.takeWhile Char.isDigit
    let r1 := l1.dropWhile Char.isDigit
    let fpr : List Char × List Char :=
      match r1 with
      | '.' :: r => (r.takeWhile Char.isDigit, r.dropWhile Char.isDigit)
      | _ => ([], r1)
    let fp := fpr.1
    let r2 := fpr.2
    if ip.isEmpty ∧ fp.isEmpty then none
    else
      let mant : ℤ := (digitsVal (ip ++ fp) : ℤ)
      let signed := if neg then -mant else mant
      match r2 with
      | [] => some (.fin signed (-(fp.length : ℤ)))
      | e :: r3 =>
        if e = 'e' ∨ e = 'E' then
          let esgn : Bool × List Char :=
            match r3 with
            | '+' :: r => (false, r)
            | '-' :: r => (true, r)
            | r => (false, r)
          if ¬ esgn.2.isEmpty ∧ esgn.2.all Char.isDigit then
            some (.fin signed (-(fp.length : ℤ) +
              (if esgn.1 then -(digitsVal esgn.2 : ℤ) else (digitsVal esgn.2 : ℤ))))
          else none
        else none

/-- Round `num / den` (for `den > 0`) to the nearest integer, ties to even
(the `ROUND_HALF_EVEN` default of Python `Decimal.quantize`).  Uses
Euclidean quotient/remainder, which is floor division for `den > 0`. -/
def intRoundHalfEven (num den : ℤ) : ℤ :=
  if 2 * (num % den) < den then num / den
  else if den < 2 * (num % den) then num / den + 1
  else if (num / den) % 2 = 0 then num / den
  else num / den + 1

/-- Model of `v.quantize(Decimal("0.01"))` on a finite value
`mant · 10 ^ exp`: the value in cents, rounded half-even; fails
(`InvalidOperation`) when the resulting coefficient exceeds the 28-digit
context precision. -/
def quantize2 (mant exp : ℤ) : Option ℤ :=
  let cents : ℤ :=
    if 0 ≤ exp + 2 then mant * 10 ^ (exp + 2).toNat
    else intRoundHalfEven mant (10 ^ (-(exp + 2)).toNat)
  if cents.natAbs < 10 ^ 28 then some cents else none

/-- Test `re.search(r"\d+\.\d{3},\d{1,2}$", text)` needs, after the final
comma's digits, exactly three digits, a period and at least one more digit
(reading the reversed string). -/
def threeDigitsDotDigit : List Char → Bool
  | c1 :: c2 :: c3 :: '.' :: c4 :: _ =>
    c1.isDigit && c2.isDigit && c3.isDigit && c4.isDigit
  | _ => false

/-- Model of `re.search(r"\d+\.\d{3},\d{1,2}$", text)`: the string ends
with one or two digits preceded by a comma, preceded by three digits, a
period and at least one digit. -/
def brThousandsSuffix (text : List Char) : Bool :=
  match text.reverse with
  | d1 :: ',' :: rest => d1.isDigit && threeDigitsDotDigit rest
  | d1 :: d2 :: ',' :: rest => d1.isDigit && d2.isDigit && threeDigitsDotDigit rest
  | _ => false

/-- Model of `re.sub(r"[Rr]\$\s?", "", text)` (the core parser): every
occurrence of `R`/`r` followed by `$` and optionally one whitespace
character is removed, scanning left to right. -/
def stripCurrencyCore : List Char → List Char
  | [] => []
  | c1 :: '$' :: c2 :: rest3 =>
    if c1 = 'R' ∨ c1 = 'r' then
      if pyIsSpace c2 then stripCurrencyCore rest3 else stripCurrencyCore (c2 :: rest3)
    else c1 :: stripCurrencyCore ('$' :: c2 :: rest3)
  | c1 :: '$' :: [] => if c1 = 'R' ∨ c1 = 'r' then [] else [c1, '$']
  | c1 :: rest => c1 :: stripCurrencyCore rest

/-- `text.replace(",", ".")`. -/
def commaToDot (l : List Char) : List Char := l.map fun c => if c = ',' then '.' else c

/-- `text.replace(".", "")`. -/
def removeDots (l : List Char) : List Char := l.filter fun c => c ≠ '.'

/-- Embedding of `br_to_decimal` from `src/src/core/parser.py`, returning
the parsed amount in cents (`none` models raising). -/
def br_to_decimal (s : List Char) : Option ℤ :=
  let text := stripCurrencyCore (pyStrip s)
  let text :=
    if brThousandsSuffix text then commaToDot (removeDots text)
    else if text.contains ',' ∧ ¬ text.contains '.' then commaToDot text
    else text
  match pyDecimal text with
  | some (.fin m e) => quantize2 m e
  | some .special => none
  | none => none

/-- Match the separator core `(?:-+(?!\d)|;|\||,(?!\d))` at the head of the
string, returning how many characters it consumes.  A run of hyphens
followed by a digit backtracks to leave its last hyphen unconsumed (and
fails when the run has length one); a comma followed by a digit does not
match. -/
def sepCoreLen : List Char → Option ℕ
  | ';' :: _ => some 1
  | '|' :: _ => some 1
  | ',' :: c :: _ => if c.isDigit then none else some 1
  | [','] => some 1
  | '-' :: rest =>
    let run := 1 + (rest.takeWhile (fun c => c = '-')).length
    match rest.dropWhile (fun c => c = '-') with
    | c :: _ => if c.isDigit then (if run = 1 then none else some (run - 1)) else some run
    | [] => some run
  | _ => none

/-- Match the full separator `\s*(?:-+(?!\d)|;|\||,(?!\d))\s*` at the head
of the string: greedy leading whitespace, the core, greedy trailing
whitespace.  Returns the total number of characters consumed. -/
def sepMatchLen (cs : List Char) : Option ℕ :=
  let sp := (cs.takeWhile pyIsSpace).length
  match sepCoreLen (cs.dropWhile pyIsSpace) with
  | none => none
  | some k =>
    some (sp + k + (((cs.dropWhile pyIsSpace).drop k).takeWhile pyIsSpace).length)

/-- Scan for the leftmost separator match: returns the field up to it and,
when a separator was found, the remainder of the string after it. -/
def scanField : List Char → List Char × Option (List Char)
  | [] => ([], none)
  | c :: rest =>
    match sepMatchLen (c :: rest) with
    | some n => ([], some ((c :: rest).drop n))
    | none =>
      let fr := scanField rest
      (c :: fr.1, fr.2)

/-- Model of `SEP_RE.split(text, maxsplit)` with `k` splits remaining: once
the budget is exhausted the rest of the string is the final field. -/
def splitAux : ℕ → List Char → List (List Char)
  | 0, text => [text]
  | k + 1, text =>
    match scanField text with
    | (f, none) => [f]
    | (f, some rest) => f :: splitAux k rest

/-- Model of `config.SEP_RE.split(text, maxsplit=5)`. -/
def splitTop (text : List Char) : List (List Char) := splitAux 5 text

/-- Error kinds of the spec's taxonomy: `FormatKind` for the wrong field
count, `ValidationKind` for everything else. -/
inductive ErrKind where
  | format
  | validation
deriving DecidableEq

/-- A parse failure (the `ValueError` message, classified by kind). -/
structure ParseErr where
  kind : ErrKind
  msg : List Char
deriving DecidableEq

/-- The canonical expense record produced by `parse_message` (amount in
cents). -/
structure Expense where
  amount : ℤ
  description : List Char
  method : List Char
  tag : List Char
  category : List Char
  installments : Option ℕ
deriving DecidableEq

/-- Result of `parse_message`. -/
inductive ParseResult where
  | ok (e : Expense)
  | failed (e : ParseErr)
deriving DecidableEq

/-- Modelled from the spec: `config/categories.json` is not part of the
repository snapshot, so the canonical method table is built, as §4.3
describes, from the closed list of canonical display strings keyed by
their own normalized form (Pix, Cartão de Crédito, Cartão de Débito,
Boleto). -/
def ALLOWED_METHODS : List (List Char × List Char) :=
  [("pix".toList, "Pix".toList),
   ("cartao de credito".toList, "Cartão de Crédito".toList),
   ("cartao de debito".toList, "Cartão de Débito".toList),
   ("boleto".toList, "Boleto".toList)]

/-- Modelled from the spec: the canonical tag table (Gastos Pessoais,
Gastos do Casal, Gastos de Casa), keyed by normalized form;
`config/categories.json` is not in the snapshot. -/
def ALLOWED_TAGS : List (List Char × List Char) :=
  [("gastos pessoais".toList, "Gastos Pessoais".toList),
   ("gastos do casal".toList, "Gastos do Casal".toList),
   ("gastos de casa".toList, "Gastos de Casa".toList)]

/-- Modelled from the spec: the closed category list, containing at least
the categories the spec's examples use (Transporte, Outros);
`config/categories.json` is not in the snapshot. -/
def CATEGORIES_DISPLAY : List (List Char) :=
  ["Transporte".toList, "Outros".toList]

/-- `ALLOWED_CATEGORIES`: each display string keyed by its normalized
form, as built in `src/src/core/config.py`. -/
def ALLOWED_CATEGORIES : List (List Char × List Char) :=
  CATEGORIES_DISPLAY.map fun c => (stripAccentsLower c, c)

/-- Association-list lookup (Python `dict` access on the tables). -/
def lookupTable (tbl : List (List Char × List Char)) (key : List Char) :
    Option (List Char) :=
  (tbl.find? fun p => p.1 == key).map Prod.snd

/-- Embedding of `canon_method` from `src/src/core/parser.py`. -/
def canon_method (raw : List Char) : Sum ParseErr (List Char) :=
  match lookupTable ALLOWED_METHODS (stripAccentsLower raw) with
  | some v => .inr v
  | none =>
    .inl ⟨.validation,
      "Método inválido. Use: Pix, Cartão de Crédito, Cartão de Débito ou Boleto.".toList⟩

/-- Embedding of `canon_tag` from `src/src/core/parser.py`. -/
def canon_tag (raw : List Char) : Sum ParseErr (List Char) :=
  match lookupTable ALLOWED_TAGS (stripAccentsLower raw) with
  | some v => .inr v
  | none =>
    .inl ⟨.validation,
      "Tag inválida. Use: Gastos Pessoais, Gastos do Casal ou Gastos de Casa.".toList⟩

/-- Embedding of `canon_category` from `src/src/core/parser.py`. -/
def canon_category (raw : List Char) : Sum ParseErr (List Char) :=
  match lookupTable ALLOWED_CATEGORIES (stripAccentsLower raw) with
  | some v => .inr v
  | none => .inl ⟨.validation, "Categoria inválida.".toList⟩

/-- The installments block of `parse_message`: absent or blank means no
installments; otherwise the stripped field must consist of digits
(`re.fullmatch(r"\d+", ...)`) and is read as a natural number. -/
def parseInstallments : Option (List Char) → Sum ParseErr (Option ℕ)
  | none => .inr none
  | some raw =>
    if (pyStrip raw).isEmpty then .inr none
    else if (pyStrip raw).all Char.isDigit then .inr (some (digitsVal (pyStrip raw)))
    else .inl ⟨.validation, "Parcelas deve ser um número inteiro (ex.: 3).".toList⟩

/-- The condition `installments is not None and installments > 1`. -/
def multiInstallment : Option ℕ → Bool
  | some k => decide (1 < k)
  | none => false

/-- Embedding of `parse_message` from `src/src/core/parser.py`: split the
stripped line on `SEP_RE` with at most 5 splits, check the field count,
the description, the installments field, the amount, the cross-field
negative/installments rule, and canonicalize the enumerated fields. -/
def parse_message (text : List Char) : ParseResult :=
  let parts := splitTop (pyStrip text)
  if parts.length < 5 then
    .failed ⟨.format,
      "Lançamento Incorreto: Utilize o formato: Valor - Descrição - Método - Tag - Categoria [- Parcelas]".toList⟩
  else
    let val_s := parts.getD 0 []
    let desc_raw := parts.getD 1 []
    let method_raw := parts.getD 2 []
    let tag_raw := parts.getD 3 []
    let category_raw := parts.getD 4 []
    let inst_raw := if 5 < parts.length then some (parts.getD 5 []) else none
    if (pyStrip desc_raw).isEmpty then
      .failed ⟨.validation, "A descrição não pode estar vazia.".toList⟩
    else
      match parseInstallments inst_raw with
      | .inl e => .failed e
      | .inr installments =>
        match br_to_decimal val_s with
        | none => .failed ⟨.validation, "Valor inválido.".toList⟩
        | some amount =>
          if amount < 0 ∧ multiInstallment installments = true then
            .failed ⟨.validation,
              "Valores negativos (reembolsos/estornos) não podem ser parcelados. Use apenas 1x ou omita o número de parcelas.".toList⟩
          else
            match canon_method method_raw with
            | .inl e => .failed e
            | .inr mthd =>
              match canon_tag tag_raw with
              | .inl e => .failed e
              | .inr tg =>
                match canon_category category_raw with
                | .inl e => .failed e
                | .inr cat =>
                  .ok ⟨amount, titleize_pt desc_raw, mthd, tg, cat, installments⟩

/-! ## Date arithmetic lemmas -/

theorem Date.lt_def (a b : Date) : (a < b) = Date.lt a b := rfl

theorem Date.le_def (a b : Date) : (a ≤ b) = Date.le a b := rfl

theorem daysInMonth_bounds (y m : Int) : 28 ≤ daysInMonth y m ∧ daysInMonth y m ≤ 31 := by
  unfold daysInMonth
  split_ifs <;> omega

theorem nextYM_snd_range (y m : Int) (hm : 1 ≤ m ∧ m ≤ 12) :
    1 ≤ (nextYM y m).2 ∧ (nextYM y m).2 ≤ 12 := by
  unfold nextYM
  split_ifs <;> simp <;> omega

theorem prevYM_snd_range (y m : Int) (hm : 1 ≤ m ∧ m ≤ 12) :
    1 ≤ (prevYM y m).2 ∧ (prevYM y m).2 ≤ 12 := by
  unfold prevYM
  split_ifs <;> simp <;> omega

theorem prevYM_nextYM (y m : Int) (hm : 1 ≤ m ∧ m ≤ 12) :
    prevYM (nextYM y m).1 (nextYM y m).2 = (y, m) := by
  unfold nextYM prevYM
  split_ifs <;> simp_all [Prod.ext_iff] <;> omega

theorem nextYM_gt (y m : Int) :
    y < (nextYM y m).1 ∨ (y = (nextYM y m).1 ∧ m < (nextYM y m).2) := by
  unfold nextYM
  split_ifs <;> simp <;> omega

theorem prevYM_lt (y m : Int) :
    (prevYM y m).1 < y ∨ ((prevYM y m).1 = y ∧ (prevYM y m).2 < m) := by
  unfold prevYM
  split_ifs <;> simp <;> omega

theorem addMonths1_day (y m d : Int) (hd : d ≤ 28) :
    addMonths1 ⟨y, m, d⟩ = ⟨(nextYM y m).1, (nextYM y m).2, d⟩ := by
  have hb := daysInMonth_bounds (nextYM y m).1 (nextYM y m).2
  simp only [addMonths1]
  congr 1
  omega

theorem subMonths1_day (y m d : Int) (hd : d ≤ 28) :
    subMonths1 ⟨y, m, d⟩ = ⟨(prevYM y m).1, (prevYM y m).2, d⟩ := by
  have hb := daysInMonth_bounds (prevYM y m).1 (prevYM y m).2
  simp only [subMonths1]
  congr 1
  omega

theorem prevDay_mk (y m d : Int) (hd : 1 < d) :
    prevDay ⟨y, m, d⟩ = ⟨y, m, d - 1⟩ := by
  simp [prevDay, hd]

theorem nextDay_mk (y m d : Int) (hd : d < daysInMonth y m) :
    nextDay ⟨y, m, d⟩ = ⟨y, m, d + 1⟩ := by
  simp [nextDay, hd]

theorem nextDay_small (y m d : Int) (hd : d ≤ 27) :
    nextDay ⟨y, m, d⟩ = ⟨y, m, d + 1⟩ := by
  have hb := daysInMonth_bounds y m
  exact nextDay_mk y m d (by omega)

theorem prevDay_first (y m : Int) (hm : 1 ≤ m) :
    prevDay ⟨y, m, 1⟩ =
      ⟨(prevYM y m).1, (prevYM y m).2,
        daysInMonth (prevYM y m).1 (prevYM y m).2⟩ := by
  simp only [prevDay, prevYM]
  split_ifs <;> first | omega | rfl | norm_num [daysInMonth]

theorem nextDay_eom (y m d : Int) (hm : m ≤ 12) (hd : d = daysInMonth y m) :
    nextDay ⟨y, m, d⟩ = ⟨(nextYM y m).1, (nextYM y m).2, 1⟩ := by
  simp only [nextDay, nextYM]
  split_ifs <;> simp_all <;> omega

theorem nextDay_gt (t : Date) : t < nextDay t := by
  obtain ⟨y, m, d⟩ := t
  simp only [nextDay, Date.lt_def, Date.lt]
  split_ifs <;> simp <;> omega

theorem nextDay_le_of_lt (t x : Date) (ht : t.Valid) (hx : x.Valid) (h : t < x) :
    nextDay t ≤ x := by
  obtain ⟨y, m, d⟩ := t
  obtain ⟨y2, m2, d2⟩ := x
  simp only [Date.Valid] at ht hx
  simp only [Date.lt_def, Date.lt] at h
  simp only [nextDay, Date.le_def, Date.le]
  have hb := daysInMonth_bounds y m
  have hb2 := daysInMonth_bounds y2 m2
  rcases h with h | ⟨hy, h⟩
  · split_ifs <;> simp <;> omega
  · subst hy
    rcases h with h | ⟨hm, h⟩
    · split_ifs <;> simp <;> omega
    · subst hm
      split_ifs <;> simp <;> omega

theorem prevDay_17 (a b : Int) : prevDay ⟨a, b, 17⟩ = ⟨a, b, 16⟩ := by
  rw [prevDay_mk a b 17 (by omega)]
  norm_num

theorem prevDay_4 (a b : Int) : prevDay ⟨a, b, 4⟩ = ⟨a, b, 3⟩ := by
  rw [prevDay_mk a b 4 (by omega)]
  norm_num

theorem nextDay_16 (a b : Int) : nextDay ⟨a, b, 16⟩ = ⟨a, b, 17⟩ := by
  have hb := daysInMonth_bounds a b
  rw [nextDay_mk a b 16 (by omega)]
  norm_num

theorem nextDay_3 (a b : Int) : nextDay ⟨a, b, 3⟩ = ⟨a, b, 4⟩ := by
  have hb := daysInMonth_bounds a b
  rw [nextDay_mk a b 3 (by omega)]
  norm_num

/-! ## Branch descriptions of the billing-cycle resolver -/

theorem gcs_transition (t : Date)
    (h : CYCLE_CHANGE_DATE ≤ t ∧ t ≤ CYCLE_TRANSITION_END_DATE) :
    getCycleStart t = ⟨2025, 10, 4⟩ := by
  unfold getCycleStart
  rw [if_pos h]
  rfl

theorem gcs_new_hi (y m d : Int)
    (hgt : CYCLE_TRANSITION_END_DATE < (⟨y, m, d⟩ : Date)) (hd : 17 ≤ d) :
    getCycleStart ⟨y, m, d⟩ = ⟨y, m, 17⟩ := by
  have hn1 : ¬(CYCLE_CHANGE_DATE ≤ (⟨y, m, d⟩ : Date) ∧
      (⟨y, m, d⟩ : Date) ≤ CYCLE_TRANSITION_END_DATE) := by
    simp only [CYCLE_CHANGE_DATE, CYCLE_TRANSITION_END_DATE, Date.le_def, Date.le,
      Date.lt_def, Date.lt] at hgt ⊢
    omega
  unfold getCycleStart
  rw [if_neg hn1]
  dsimp only [CYCLE_RESET_DAY_NEW, CYCLE_RESET_DAY_OLD]
  rw [if_pos hgt, if_pos hd]

theorem gcs_new_lo (y m d : Int) (hm : 1 ≤ m)
    (hgt : CYCLE_TRANSITION_END_DATE < (⟨y, m, d⟩ : Date)) (hd : d < 17) :
    getCycleStart ⟨y, m, d⟩ = ⟨(prevYM y m).1, (prevYM y m).2, 17⟩ := by
  have hn1 : ¬(CYCLE_CHANGE_DATE ≤ (⟨y, m, d⟩ : Date) ∧
      (⟨y, m, d⟩ : Date) ≤ CYCLE_TRANSITION_END_DATE) := by
    simp only [CYCLE_CHANGE_DATE, CYCLE_TRANSITION_END_DATE, Date.le_def, Date.le,
      Date.lt_def, Date.lt] at hgt ⊢
    omega
  unfold getCycleStart
  rw [if_neg hn1]
  dsimp only [CYCLE_RESET_DAY_NEW, CYCLE_RESET_DAY_OLD]
  rw [if_pos hgt, if_neg (by omega : ¬ (17 : Int) ≤ d), prevDay_first y m hm]

theorem gcs_old_hi (y m d : Int)
    (hlt : (⟨y, m, d⟩ : Date) < CYCLE_CHANGE_DATE) (hd : 4 ≤ d) :
    getCycleStart ⟨y, m, d⟩ = ⟨y, m, 4⟩ := by
  have hn1 : ¬(CYCLE_CHANGE_DATE ≤ (⟨y, m, d⟩ : Date) ∧
      (⟨y, m, d⟩ : Date) ≤ CYCLE_TRANSITION_END_DATE) := by
    simp only [CYCLE_CHANGE_DATE, CYCLE_TRANSITION_END_DATE, Date.le_def, Date.le,
      Date.lt_def, Date.lt] at hlt ⊢
    omega
  have hn2 : ¬ CYCLE_TRANSITION_END_DATE < (⟨y, m, d⟩ : Date) := by
    simp only [CYCLE_TRANSITION_END_DATE, CYCLE_CHANGE_DATE, Date.le_def, Date.le,
      Date.lt_def, Date.lt] at hlt ⊢
    omega
  unfold getCycleStart
  rw [if_neg hn1]
  dsimp only [CYCLE_RESET_DAY_NEW, CYCLE_RESET_DAY_OLD]
  rw [if_neg hn2, if_pos hd]

theorem gcs_old_lo (y m d : Int) (hm : 1 ≤ m)
    (hlt : (⟨y, m, d⟩ : Date) < CYCLE_CHANGE_DATE) (hd : d < 4) :
    getCycleStart ⟨y, m, d⟩ = ⟨(prevYM y m).1, (prevYM y m).2, 4⟩ := by
  have hn1 : ¬(CYCLE_CHANGE_DATE ≤ (⟨y, m, d⟩ : Date) ∧
      (⟨y, m, d⟩ : Date) ≤ CYCLE_TRANSITION_END_DATE) := by
    simp only [CYCLE_CHANGE_DATE, CYCLE_TRANSITION_END_DATE, Date.le_def, Date.le,
      Date.lt_def, Date.lt] at hlt ⊢
    omega
  have hn2 : ¬ CYCLE_TRANSITION_END_DATE < (⟨y, m, d⟩ : Date) := by
    simp only [CYCLE_TRANSITION_END_DATE, CYCLE_CHANGE_DATE, Date.le_def, Date.le,
      Date.lt_def, Date.lt] at hlt ⊢
    omega
  unfold getCycleStart
  rw [if_neg hn1]
  dsimp only [CYCLE_RESET_DAY_NEW, CYCLE_RESET_DAY_OLD]
  rw [if_neg hn2, if_neg (by omega : ¬ (4 : Int) ≤ d), prevDay_first y m hm]

theorem candp_transition (t : Date)
    (h : CYCLE_CHANGE_DATE ≤ t ∧ t ≤ CYCLE_TRANSITION_END_DATE) :
    getCurrentAndPreviousCycleDates t =
      ⟨⟨⟨2025, 10, 4⟩, ⟨2025, 11, 16⟩⟩, ⟨⟨2025, 9, 4⟩, ⟨2025, 10, 3⟩⟩⟩ := by
  unfold getCurrentAndPreviousCycleDates
  rw [if_pos h]
  decide

theorem candp_new_hi (y m d : Int) (hm1 : 1 ≤ m) (hm2 : m ≤ 12)
    (hgt : CYCLE_TRANSITION_END_DATE < (⟨y, m, d⟩ : Date)) (hd : 17 ≤ d) :
    getCurrentAndPreviousCycleDates ⟨y, m, d⟩ =
      if (⟨y, m, 17⟩ : Date) = ⟨2025, 11, 17⟩ then
        ⟨⟨⟨y, m, 17⟩, ⟨(nextYM y m).1, (nextYM y m).2, 16⟩⟩,
         ⟨⟨2025, 10, 4⟩, ⟨2025, 11, 16⟩⟩⟩
      else
        ⟨⟨⟨y, m, 17⟩, ⟨(nextYM y m).1, (nextYM y m).2, 16⟩⟩,
         ⟨⟨(prevYM y m).1, (prevYM y m).2, 17⟩, ⟨y, m, 16⟩⟩⟩ := by
  have hn1 : ¬(CYCLE_CHANGE_DATE ≤ (⟨y, m, d⟩ : Date) ∧
      (⟨y, m, d⟩ : Date) ≤ CYCLE_TRANSITION_END_DATE) := by
    simp only [CYCLE_CHANGE_DATE, CYCLE_TRANSITION_END_DATE, Date.le_def, Date.le,
      Date.lt_def, Date.lt] at hgt ⊢
    omega
  unfold getCurrentAndPreviousCycleDates
  rw [if_neg hn1]
  dsimp only [CYCLE_RESET_DAY_NEW, CYCLE_RESET_DAY_OLD]
  rw [if_pos hgt, if_neg (by omega : ¬ d < (17 : Int)),
    addMonths1_day y m 17 (by omega), prevDay_17, nextDay_16,
    subMonths1_day _ _ 17 (by omega), prevYM_nextYM y m ⟨hm1, hm2⟩,
    subMonths1_day _ _ 16 (by omega), prevYM_nextYM y m ⟨hm1, hm2⟩,
    subMonths1_day _ _ 17 (by omega)]
  have hTE : nextDay CYCLE_TRANSITION_END_DATE = ⟨2025, 11, 17⟩ := by decide
  rw [hTE]
  dsimp only [CYCLE_CHANGE_DATE, CYCLE_TRANSITION_END_DATE]

theorem candp_new_lo (y m d : Int) (hm1 : 1 ≤ m) (hm2 : m ≤ 12)
    (hgt : CYCLE_TRANSITION_END_DATE < (⟨y, m, d⟩ : Date)) (hd : d < 17) :
    getCurrentAndPreviousCycleDates ⟨y, m, d⟩ =
      if (⟨(prevYM y m).1, (prevYM y m).2, 17⟩ : Date) = ⟨2025, 11, 17⟩ then
        ⟨⟨⟨(prevYM y m).1, (prevYM y m).2, 17⟩, ⟨y, m, 16⟩⟩,
         ⟨⟨2025, 10, 4⟩, ⟨2025, 11, 16⟩⟩⟩
      else
        ⟨⟨⟨(prevYM y m).1, (prevYM y m).2, 17⟩, ⟨y, m, 16⟩⟩,
         ⟨⟨(prevYM (prevYM y m).1 (prevYM y m).2).1,
           (prevYM (prevYM y m).1 (prevYM y m).2).2, 17⟩,
          ⟨(prevYM y m).1, (prevYM y m).2, 16⟩⟩⟩ := by
  have hn1 : ¬(CYCLE_CHANGE_DATE ≤ (⟨y, m, d⟩ : Date) ∧
      (⟨y, m, d⟩ : Date) ≤ CYCLE_TRANSITION_END_DATE) := by
    simp only [CYCLE_CHANGE_DATE, CYCLE_TRANSITION_END_DATE, Date.le_def, Date.le,
      Date.lt_def, Date.lt] at hgt ⊢
    omega
  unfold getCurrentAndPreviousCycleDates
  rw [if_neg hn1]
  dsimp only [CYCLE_RESET_DAY_NEW, CYCLE_RESET_DAY_OLD]
  rw [if_pos hgt, if_pos hd, prevDay_17, nextDay_16,
    subMonths1_day _ _ 17 (by omega),
    subMonths1_day _ _ 16 (by omega),
    subMonths1_day _ _ 17 (by omega)]
  have hTE : nextDay CYCLE_TRANSITION_END_DATE = ⟨2025, 11, 17⟩ := by decide
  rw [hTE]
  dsimp only [CYCLE_CHANGE_DATE, CYCLE_TRANSITION_END_DATE]

theorem candp_old_hi (y m d : Int) (hm1 : 1 ≤ m) (hm2 : m ≤ 12)
    (hlt : (⟨y, m, d⟩ : Date) < CYCLE_CHANGE_DATE) (hd : 4 ≤ d) :
    getCurrentAndPreviousCycleDates ⟨y, m, d⟩ =
      ⟨⟨⟨y, m, 4⟩, ⟨(nextYM y m).1, (nextYM y m).2, 3⟩⟩,
       ⟨⟨(prevYM y m).1, (prevYM y m).2, 4⟩, ⟨y, m, 3⟩⟩⟩ := by
  have hn1 : ¬(CYCLE_CHANGE_DATE ≤ (⟨y, m, d⟩ : Date) ∧
      (⟨y, m, d⟩ : Date) ≤ CYCLE_TRANSITION_END_DATE) := by
    simp only [CYCLE_CHANGE_DATE, CYCLE_TRANSITION_END_DATE, Date.le_def, Date.le,
      Date.lt_def, Date.lt] at hlt ⊢
    omega
  have hn2 : ¬ CYCLE_TRANSITION_END_DATE < (⟨y, m, d⟩ : Date) := by
    simp only [CYCLE_TRANSITION_END_DATE, CYCLE_CHANGE_DATE, Date.le_def, Date.le,
      Date.lt_def, Date.lt] at hlt ⊢
    omega
  unfold getCurrentAndPreviousCycleDates
  rw [if_neg hn1]
  dsimp only [CYCLE_RESET_DAY_NEW, CYCLE_RESET_DAY_OLD]
  rw [if_neg hn2, if_neg (by omega : ¬ d < (4 : Int)),
    addMonths1_day y m 4 (by omega), prevDay_4, nextDay_3,
    subMonths1_day _ _ 4 (by omega), prevYM_nextYM y m ⟨hm1, hm2⟩,
    subMonths1_day _ _ 3 (by omega), prevYM_nextYM y m ⟨hm1, hm2⟩,
    subMonths1_day _ _ 4 (by omega)]

theorem candp_old_lo (y m d : Int) (hm1 : 1 ≤ m) (hm2 : m ≤ 12)
    (hlt : (⟨y, m, d⟩ : Date) < CYCLE_CHANGE_DATE) (hd : d < 4) :
    getCurrentAndPreviousCycleDates ⟨y, m, d⟩ =
      ⟨⟨⟨(prevYM y m).1, (prevYM y m).2, 4⟩, ⟨y, m, 3⟩⟩,
       ⟨⟨(prevYM (prevYM y m).1 (prevYM y m).2).1,
         (prevYM (prevYM y m).1 (prevYM y m).2).2, 4⟩,
        ⟨(prevYM y m).1, (prevYM y m).2, 3⟩⟩⟩ := by
  have hn1 : ¬(CYCLE_CHANGE_DATE ≤ (⟨y, m, d⟩ : Date) ∧
      (⟨y, m, d⟩ : Date) ≤ CYCLE_TRANSITION_END_DATE) := by
    simp only [CYCLE_CHANGE_DATE, CYCLE_TRANSITION_END_DATE, Date.le_def, Date.le,
      Date.lt_def, Date.lt] at hlt ⊢
    omega
  have hn2 : ¬ CYCLE_TRANSITION_END_DATE < (⟨y, m, d⟩ : Date) := by
    simp only [CYCLE_TRANSITION_END_DATE, CYCLE_CHANGE_DATE, Date.le_def, Date.le,
      Date.lt_def, Date.lt] at hlt ⊢
    omega
  unfold getCurrentAndPreviousCycleDates
  rw [if_neg hn1]
  dsimp only [CYCLE_RESET_DAY_NEW, CYCLE_RESET_DAY_OLD]
  rw [if_neg hn2, if_pos hd, prevDay_4, nextDay_3,
    subMonths1_day _ _ 4 (by omega),
    subMonths1_day _ _ 3 (by omega),
    subMonths1_day _ _ 4 (by omega)]

theorem valid_small (a b c : Int) (hm : 1 ≤ b ∧ b ≤ 12) (hd : 1 ≤ c ∧ c ≤ 28) :
    (⟨a, b, c⟩ : Date).Valid := by
  have hb := daysInMonth_bounds a b
  simp only [Date.Valid]
  omega

/-- Counterexample for the totality conjunct of C4 as stated ("raising no
error for any valid calendar date"): Python `datetime.date` represents only
years 1..9999. On the valid, representable input 0001-01-01, the step
`first_of_month - timedelta(days=1)` inside `get_cycle_start`
(src/src/core/utils.py) would produce the year-0 date 0000-12-31 and the
cycle start itself would be 0000-12-04, both below `datetime.MINYEAR`, so
the Python call raises `OverflowError` instead of returning. Symmetrically,
for the valid input 9999-12-17 the current cycle computed by
`get_current_and_previous_cycle_dates` ends on 10000-01-16, above
`datetime.MAXYEAR`, and that call raises too. The unbounded-year model
exhibits both out-of-range dates explicitly. -/
theorem c4_counterexample :
    (⟨1, 1, 1⟩ : Date).Valid ∧ pythonRepresentable ⟨1, 1, 1⟩ ∧
    prevDay ⟨1, 1, 1⟩ = ⟨0, 12, 31⟩ ∧
    getCycleStart ⟨1, 1, 1⟩ = ⟨0, 12, 4⟩ ∧
    ¬ pythonRepresentable (getCycleStart ⟨1, 1, 1⟩) ∧
    (⟨9999, 12, 17⟩ : Date).Valid ∧ pythonRepresentable ⟨9999, 12, 17⟩ ∧
    (getCurrentAndPreviousCycleDates ⟨9999, 12, 17⟩).current.stop = ⟨10000, 1, 16⟩ ∧
    ¬ pythonRepresentable ((getCurrentAndPreviousCycleDates ⟨9999, 12, 17⟩).current.stop) := by
  decide

/-- C4 (amended): for every valid calendar date `d` (in the unbounded-year
Gregorian model), `get_cycle_start(d)` equals
`get_current_and_previous_cycle_dates(d)["current"]["start"]` bit for bit,
and every date either resolver computes is again a valid calendar date of
that model; the resolvers are not error-free on Python's bounded date type —
at the edges of the representable year range 1..9999 the computed dates
overflow (see the counterexample) — but wherever Python does return, it
returns these values. -/
theorem c4_cycle_resolvers_agree (t : Date) (hv : t.Valid) :
    getCycleStart t = (getCurrentAndPreviousCycleDates t).current.start ∧
    (getCycleStart t).Valid ∧
    (getCurrentAndPreviousCycleDates t).current.start.Valid ∧
    (getCurrentAndPreviousCycleDates t).current.stop.Valid ∧
    (getCurrentAndPreviousCycleDates t).previous.start.Valid ∧
    (getCurrentAndPreviousCycleDates t).previous.stop.Valid := by
  obtain ⟨y, m, d⟩ := t
  have hv' : 1 ≤ m ∧ m ≤ 12 ∧ 1 ≤ d ∧ d ≤ daysInMonth y m := hv
  obtain ⟨hm1, hm2, hd1, hd2⟩ := hv'
  have hnx := nextYM_snd_range y m ⟨hm1, hm2⟩
  have hpv := prevYM_snd_range y m ⟨hm1, hm2⟩
  have hpp := prevYM_snd_range (prevYM y m).1 (prevYM y m).2 hpv
  by_cases h1 : CYCLE_CHANGE_DATE ≤ (⟨y, m, d⟩ : Date) ∧
      (⟨y, m, d⟩ : Date) ≤ CYCLE_TRANSITION_END_DATE
  · rw [gcs_transition _ h1, candp_transition _ h1]
    exact ⟨rfl, by decide, by decide, by decide, by decide, by decide⟩
  · by_cases h2 : CYCLE_TRANSITION_END_DATE < (⟨y, m, d⟩ : Date)
    · by_cases h3 : 17 ≤ d
      · rw [gcs_new_hi y m d h2 h3, candp_new_hi y m d hm1 hm2 h2 h3]
        split_ifs with hsnap
        · exact ⟨rfl, valid_small _ _ _ ⟨hm1, hm2⟩ (by omega),
            valid_small _ _ _ ⟨hm1, hm2⟩ (by omega),
            valid_small _ _ _ hnx (by omega),
            (show (⟨2025, 10, 4⟩ : Date).Valid by decide),
            (show (⟨2025, 11, 16⟩ : Date).Valid by decide)⟩
        · exact ⟨rfl, valid_small _ _ _ ⟨hm1, hm2⟩ (by omega),
            valid_small _ _ _ ⟨hm1, hm2⟩ (by omega),
            valid_small _ _ _ hnx (by omega),
            valid_small _ _ _ hpv (by omega),
            valid_small _ _ _ ⟨hm1, hm2⟩ (by omega)⟩
      · rw [gcs_new_lo y m d hm1 h2 (by omega), candp_new_lo y m d hm1 hm2 h2 (by omega)]
        split_ifs with hsnap
        · exact ⟨rfl, valid_small _ _ _ hpv (by omega),
            valid_small _ _ _ hpv (by omega),
            valid_small _ _ _ ⟨hm1, hm2⟩ (by omega),
            (show (⟨2025, 10, 4⟩ : Date).Valid by decide),
            (show (⟨2025, 11, 16⟩ : Date).Valid by decide)⟩
        · exact ⟨rfl, valid_small _ _ _ hpv (by omega),
            valid_small _ _ _ hpv (by omega),
            valid_small _ _ _ ⟨hm1, hm2⟩ (by omega),
            valid_small _ _ _ hpp (by omega),
            valid_small _ _ _ hpv (by omega)⟩
    · have hlt : (⟨y, m, d⟩ : Date) < CYCLE_CHANGE_DATE := by
        simp only [CYCLE_CHANGE_DATE, CYCLE_TRANSITION_END_DATE, Date.le_def, Date.le,
          Date.lt_def, Date.lt] at h1 h2 ⊢
        omega
      by_cases h3 : 4 ≤ d
      · rw [gcs_old_hi y m d hlt h3, candp_old_hi y m d hm1 hm2 hlt h3]
        exact ⟨rfl, valid_small _ _ _ ⟨hm1, hm2⟩ (by omega),
          valid_small _ _ _ ⟨hm1, hm2⟩ (by omega),
          valid_small _ _ _ hnx (by omega),
          valid_small _ _ _ hpv (by omega),
          valid_small _ _ _ ⟨hm1, hm2⟩ (by omega)⟩
      · rw [gcs_old_lo y m d hm1 hlt (by omega), candp_old_lo y m d hm1 hm2 hlt (by omega)]
        exact ⟨rfl, valid_small _ _ _ hpv (by omega),
          valid_small _ _ _ hpv (by omega),
          valid_small _ _ _ ⟨hm1, hm2⟩ (by omega),
          valid_small _ _ _ hpp (by omega),
          valid_small _ _ _ hpv (by omega)⟩

/-- Witness for C4 at the concrete valid date 2025-12-25. -/
theorem c4_cycle_resolvers_agree_witness :
    (⟨2025, 12, 25⟩ : Date).Valid ∧
    getCycleStart ⟨2025, 12, 25⟩ =
      (getCurrentAndPreviousCycleDates ⟨2025, 12, 25⟩).current.start :=
  ⟨by decide, (c4_cycle_resolvers_agree ⟨2025, 12, 25⟩ (by decide)).1⟩

/-- C5: for every valid date whose current cycle starts 2025-11-17 (the
cycle immediately after the transition cycle), the reported previous cycle
is exactly the transition cycle 2025-10-04 … 2025-11-16, not a synthetic
one-month-back cycle; moreover the current cycle of 2025-10-20 is the
transition cycle and `get_cycle_start(2025-08-15) = 2025-08-04`. -/
theorem c5_previous_after_transition (t : Date) (hv : t.Valid)
    (hstart : (getCurrentAndPreviousCycleDates t).current.start = ⟨2025, 11, 17⟩) :
    (getCurrentAndPreviousCycleDates t).previous = ⟨⟨2025, 10, 4⟩, ⟨2025, 11, 16⟩⟩ ∧
    (getCurrentAndPreviousCycleDates ⟨2025, 10, 20⟩).current =
      ⟨⟨2025, 10, 4⟩, ⟨2025, 11, 16⟩⟩ ∧
    getCycleStart ⟨2025, 8, 15⟩ = ⟨2025, 8, 4⟩ := by
  refine ⟨?_, by decide, by decide⟩
  obtain ⟨y, m, d⟩ := t
  have hv' : 1 ≤ m ∧ m ≤ 12 ∧ 1 ≤ d ∧ d ≤ daysInMonth y m := hv
  obtain ⟨hm1, hm2, hd1, hd2⟩ := hv'
  by_cases h1 : CYCLE_CHANGE_DATE ≤ (⟨y, m, d⟩ : Date) ∧
      (⟨y, m, d⟩ : Date) ≤ CYCLE_TRANSITION_END_DATE
  · rw [candp_transition _ h1] at hstart
    simp only [Date.mk.injEq] at hstart
    omega
  · by_cases h2 : CYCLE_TRANSITION_END_DATE < (⟨y, m, d⟩ : Date)
    · by_cases h3 : 17 ≤ d
      · rw [candp_new_hi y m d hm1 hm2 h2 h3] at hstart ⊢
        split_ifs at hstart ⊢ with hsnap
        · rfl
        · exact absurd hstart hsnap
      · rw [candp_new_lo y m d hm1 hm2 h2 (by omega)] at hstart ⊢
        split_ifs at hstart ⊢ with hsnap
        · rfl
        · exact absurd hstart hsnap
    · have hlt : (⟨y, m, d⟩ : Date) < CYCLE_CHANGE_DATE := by
        simp only [CYCLE_CHANGE_DATE, CYCLE_TRANSITION_END_DATE, Date.le_def, Date.le,
          Date.lt_def, Date.lt] at h1 h2 ⊢
        omega
      by_cases h3 : 4 ≤ d
      · rw [candp_old_hi y m d hm1 hm2 hlt h3] at hstart
        simp only [Date.mk.injEq] at hstart
        omega
      · rw [candp_old_lo y m d hm1 hm2 hlt (by omega)] at hstart
        simp only [Date.mk.injEq] at hstart
        omega

/-- Witness for C5 at the concrete date 2025-11-17. -/
theorem c5_previous_after_transition_witness :
    (⟨2025, 11, 17⟩ : Date).Valid ∧
    (getCurrentAndPreviousCycleDates ⟨2025, 11, 17⟩).current.start = ⟨2025, 11, 17⟩ ∧
    (getCurrentAndPreviousCycleDates ⟨2025, 11, 17⟩).previous =
      ⟨⟨2025, 10, 4⟩, ⟨2025, 11, 16⟩⟩ :=
  ⟨by decide, by decide,
    (c5_previous_after_transition ⟨2025, 11, 17⟩ (by decide) (by decide)).1⟩

theorem Date.le_of_lt (a b : Date) (h : a < b) : a ≤ b := by
  obtain ⟨y1, m1, d1⟩ := a
  obtain ⟨y2, m2, d2⟩ := b
  simp only [Date.lt_def, Date.lt] at h
  simp only [Date.le_def, Date.le]
  omega

theorem Date.lt_trans (a b c : Date) (h1 : a < b) (h2 : b < c) : a < c := by
  obtain ⟨y1, m1, d1⟩ := a
  obtain ⟨y2, m2, d2⟩ := b
  obtain ⟨y3, m3, d3⟩ := c
  simp only [Date.lt_def, Date.lt] at h1 h2 ⊢
  omega

theorem Date.le_trans (a b c : Date) (h1 : a ≤ b) (h2 : b ≤ c) : a ≤ c := by
  obtain ⟨y1, m1, d1⟩ := a
  obtain ⟨y2, m2, d2⟩ := b
  obtain ⟨y3, m3, d3⟩ := c
  simp only [Date.le_def, Date.le] at h1 h2 ⊢
  omega

theorem date_le_same (y m a b : Int) (h : a ≤ b) :
    (⟨y, m, a⟩ : Date) ≤ ⟨y, m, b⟩ := by
  simp only [Date.le_def, Date.le, true_and]
  omega

theorem date_lt_of_prevYM (y m a b : Int) :
    (⟨(prevYM y m).1, (prevYM y m).2, a⟩ : Date) < ⟨y, m, b⟩ := by
  have h := prevYM_lt y m
  simp only [Date.lt_def, Date.lt]
  rcases h with h | ⟨h1, h2⟩
  · exact Or.inl h
  · exact Or.inr ⟨h1, Or.inl h2⟩

theorem date_lt_of_nextYM (y m a b : Int) :
    (⟨y, m, a⟩ : Date) < ⟨(nextYM y m).1, (nextYM y m).2, b⟩ := by
  have h := nextYM_gt y m
  simp only [Date.lt_def, Date.lt]
  rcases h with h | ⟨h1, h2⟩
  · exact Or.inl h
  · exact Or.inr ⟨h1, Or.inl h2⟩

theorem nextYM_lt_change (y m d : Int) (hm2 : m ≤ 12) (hd4 : 4 ≤ d)
    (hlt : (⟨y, m, d⟩ : Date) < CYCLE_CHANGE_DATE) :
    (⟨(nextYM y m).1, (nextYM y m).2, 1⟩ : Date) < CYCLE_CHANGE_DATE := by
  unfold nextYM
  split_ifs with h <;>
    simp only [CYCLE_CHANGE_DATE, Date.lt_def, Date.lt] at hlt ⊢ <;> omega

/-- C3: for every valid date `d`, `cycle_start(d) ≤ d ≤ current end`, every
returned cycle has `start ≤ end`, and the current cycles of `d` and `d+1`
are either identical or adjacent (the next cycle starts exactly one day
after the previous one ends), across all three regimes, including at the
boundary dates 2025-10-04 and 2025-11-16 and the day after each. -/
theorem c3_cycle_coverage (t : Date) (hv : t.Valid) :
    getCycleStart t ≤ t ∧
    t ≤ (getCurrentAndPreviousCycleDates t).current.stop ∧
    (getCurrentAndPreviousCycleDates t).current.start ≤
      (getCurrentAndPreviousCycleDates t).current.stop ∧
    (getCurrentAndPreviousCycleDates t).previous.start ≤
      (getCurrentAndPreviousCycleDates t).previous.stop ∧
    (getCurrentAndPreviousCycleDates (nextDay t) = getCurrentAndPreviousCycleDates t ∨
      (getCurrentAndPreviousCycleDates (nextDay t)).current.start =
        nextDay (getCurrentAndPreviousCycleDates t).current.stop) := by
  obtain ⟨y, m, d⟩ := t
  have hv' : 1 ≤ m ∧ m ≤ 12 ∧ 1 ≤ d ∧ d ≤ daysInMonth y m := hv
  obtain ⟨hm1, hm2, hd1, hd2⟩ := hv'
  have hnx := nextYM_snd_range y m ⟨hm1, hm2⟩
  by_cases h1 : CYCLE_CHANGE_DATE ≤ (⟨y, m, d⟩ : Date) ∧
      (⟨y, m, d⟩ : Date) ≤ CYCLE_TRANSITION_END_DATE
  · by_cases hT : (⟨y, m, d⟩ : Date) = ⟨2025, 11, 16⟩
    · rw [hT]
      decide
    · have hlt16 : (⟨y, m, d⟩ : Date) < ⟨2025, 11, 16⟩ := by
        have h12 := h1.2
        simp only [CYCLE_TRANSITION_END_DATE, Date.le_def, Date.le] at h12
        simp only [Date.mk.injEq] at hT
        simp only [Date.lt_def, Date.lt]
        omega
      have hnle : nextDay ⟨y, m, d⟩ ≤ ⟨2025, 11, 16⟩ :=
        nextDay_le_of_lt _ _ hv (by decide) hlt16
      have h1' : CYCLE_CHANGE_DATE ≤ nextDay ⟨y, m, d⟩ ∧
          nextDay ⟨y, m, d⟩ ≤ CYCLE_TRANSITION_END_DATE :=
        ⟨Date.le_trans _ _ _ h1.1 (Date.le_of_lt _ _ (nextDay_gt _)), hnle⟩
      rw [gcs_transition _ h1, candp_transition _ h1, candp_transition _ h1']
      exact ⟨h1.1, h1.2, by decide, by decide, Or.inl rfl⟩
  · by_cases h2 : CYCLE_TRANSITION_END_DATE < (⟨y, m, d⟩ : Date)
    · have hngt : CYCLE_TRANSITION_END_DATE < nextDay ⟨y, m, d⟩ :=
        Date.lt_trans _ _ _ h2 (nextDay_gt _)
      by_cases hc1 : d < 16
      · have hnd : nextDay ⟨y, m, d⟩ = ⟨y, m, d + 1⟩ := nextDay_small y m d (by omega)
        rw [hnd] at hngt
        rw [gcs_new_lo y m d hm1 h2 (by omega), candp_new_lo y m d hm1 hm2 h2 (by omega),
          hnd, candp_new_lo y m (d + 1) hm1 hm2 hngt (by omega)]
        refine ⟨Date.le_of_lt _ _ (date_lt_of_prevYM y m 17 d), ?_, ?_, ?_, Or.inl rfl⟩
        · split_ifs <;> exact date_le_same y m d 16 (by omega)
        · split_ifs <;> exact Date.le_of_lt _ _ (date_lt_of_prevYM y m 17 16)
        · split_ifs with hsnap
          · exact (show (⟨2025, 10, 4⟩ : Date) ≤ ⟨2025, 11, 16⟩ by decide)
          · exact Date.le_of_lt _ _
              (date_lt_of_prevYM (prevYM y m).1 (prevYM y m).2 17 16)
      · by_cases hc2 : d = 16
        · subst hc2
          have hnd : nextDay ⟨y, m, 16⟩ = ⟨y, m, 17⟩ := nextDay_16 y m
          rw [hnd] at hngt
          rw [gcs_new_lo y m 16 hm1 h2 (by omega),
            candp_new_lo y m 16 hm1 hm2 h2 (by omega),
            hnd, candp_new_hi y m 17 hm1 hm2 hngt (by omega)]
          refine ⟨Date.le_of_lt _ _ (date_lt_of_prevYM y m 17 16), ?_, ?_, ?_, Or.inr ?_⟩
          · split_ifs <;> exact date_le_same y m 16 16 (by omega)
          · split_ifs <;> exact Date.le_of_lt _ _ (date_lt_of_prevYM y m 17 16)
          · split_ifs with hsnap
            · exact (show (⟨2025, 10, 4⟩ : Date) ≤ ⟨2025, 11, 16⟩ by decide)
            · exact Date.le_of_lt _ _
                (date_lt_of_prevYM (prevYM y m).1 (prevYM y m).2 17 16)
          · split_ifs <;> first | rfl | rw [nextDay_16]
        · have hd17 : 17 ≤ d := by omega
          by_cases hc3 : d < daysInMonth y m
          · have hnd : nextDay ⟨y, m, d⟩ = ⟨y, m, d + 1⟩ := nextDay_mk y m d hc3
            rw [hnd] at hngt
            rw [gcs_new_hi y m d h2 hd17, candp_new_hi y m d hm1 hm2 h2 hd17, hnd,
              candp_new_hi y m (d + 1) hm1 hm2 hngt (by omega)]
            refine ⟨date_le_same y m 17 d hd17, ?_, ?_, ?_, Or.inl rfl⟩
            · split_ifs <;> exact Date.le_of_lt _ _ (date_lt_of_nextYM y m d 16)
            · split_ifs <;> exact Date.le_of_lt _ _ (date_lt_of_nextYM y m 17 16)
            · split_ifs with hsnap
              · exact (show (⟨2025, 10, 4⟩ : Date) ≤ ⟨2025, 11, 16⟩ by decide)
              · exact Date.le_of_lt _ _ (date_lt_of_prevYM y m 17 16)
          · have hdm : d = daysInMonth y m := by omega
            have hnd : nextDay ⟨y, m, d⟩ = ⟨(nextYM y m).1, (nextYM y m).2, 1⟩ :=
              nextDay_eom y m d hm2 hdm
            rw [hnd] at hngt
            rw [gcs_new_hi y m d h2 hd17, candp_new_hi y m d hm1 hm2 h2 hd17, hnd,
              candp_new_lo (nextYM y m).1 (nextYM y m).2 1 hnx.1 hnx.2 hngt (by omega),
              prevYM_nextYM y m ⟨hm1, hm2⟩]
            dsimp only
            refine ⟨date_le_same y m 17 d hd17, ?_, ?_, ?_, Or.inl rfl⟩
            · split_ifs <;> exact Date.le_of_lt _ _ (date_lt_of_nextYM y m d 16)
            · split_ifs <;> exact Date.le_of_lt _ _ (date_lt_of_nextYM y m 17 16)
            · split_ifs with hsnap
              · exact (show (⟨2025, 10, 4⟩ : Date) ≤ ⟨2025, 11, 16⟩ by decide)
              · exact Date.le_of_lt _ _ (date_lt_of_prevYM y m 17 16)
    · have hlt : (⟨y, m, d⟩ : Date) < CYCLE_CHANGE_DATE := by
        simp only [CYCLE_CHANGE_DATE, CYCLE_TRANSITION_END_DATE, Date.le_def, Date.le,
          Date.lt_def, Date.lt] at h1 h2 ⊢
        omega
      by_cases hc1 : d < 3
      · have hnd : nextDay ⟨y, m, d⟩ = ⟨y, m, d + 1⟩ := nextDay_small y m d (by omega)
        have hlt' : (⟨y, m, d + 1⟩ : Date) < CYCLE_CHANGE_DATE := by
          simp only [CYCLE_CHANGE_DATE, Date.lt_def, Date.lt] at hlt ⊢
          omega
        rw [gcs_old_lo y m d hm1 hlt (by omega), candp_old_lo y m d hm1 hm2 hlt (by omega),
          hnd, candp_old_lo y m (d + 1) hm1 hm2 hlt' (by omega)]
        exact ⟨Date.le_of_lt _ _ (date_lt_of_prevYM y m 4 d),
          date_le_same y m d 3 (by omega),
          Date.le_of_lt _ _ (date_lt_of_prevYM y m 4 3),
          Date.le_of_lt _ _ (date_lt_of_prevYM (prevYM y m).1 (prevYM y m).2 4 3),
          Or.inl rfl⟩
      · by_cases hc2 : d = 3
        · subst hc2
          by_cases hB : y = 2025 ∧ m = 10
          · obtain ⟨hy, hmm⟩ := hB
            subst hy
            subst hmm
            decide
          · have hnd : nextDay ⟨y, m, 3⟩ = ⟨y, m, 4⟩ := nextDay_3 y m
            have hlt' : (⟨y, m, 4⟩ : Date) < CYCLE_CHANGE_DATE := by
              simp only [CYCLE_CHANGE_DATE, Date.lt_def, Date.lt] at hlt ⊢
              simp only [not_and] at hB
              omega
            rw [gcs_old_lo y m 3 hm1 hlt (by omega),
              candp_old_lo y m 3 hm1 hm2 hlt (by omega),
              hnd, candp_old_hi y m 4 hm1 hm2 hlt' (by omega)]
            refine ⟨Date.le_of_lt _ _ (date_lt_of_prevYM y m 4 3),
              date_le_same y m 3 3 (by omega),
              Date.le_of_lt _ _ (date_lt_of_prevYM y m 4 3),
              Date.le_of_lt _ _ (date_lt_of_prevYM (prevYM y m).1 (prevYM y m).2 4 3),
              Or.inr ?_⟩
            first | rfl | rw [nextDay_3]
        · have hd4 : 4 ≤ d := by omega
          by_cases hc3 : d < daysInMonth y m
          · have hnd : nextDay ⟨y, m, d⟩ = ⟨y, m, d + 1⟩ := nextDay_mk y m d hc3
            have hlt' : (⟨y, m, d + 1⟩ : Date) < CYCLE_CHANGE_DATE := by
              simp only [CYCLE_CHANGE_DATE, Date.lt_def, Date.lt] at hlt ⊢
              omega
            rw [gcs_old_hi y m d hlt hd4, candp_old_hi y m d hm1 hm2 hlt hd4, hnd,
              candp_old_hi y m (d + 1) hm1 hm2 hlt' (by omega)]
            exact ⟨date_le_same y m 4 d hd4,
              Date.le_of_lt _ _ (date_lt_of_nextYM y m d 3),
              Date.le_of_lt _ _ (date_lt_of_nextYM y m 4 3),
              Date.le_of_lt _ _ (date_lt_of_prevYM y m 4 3),
              Or.inl rfl⟩
          · have hdm : d = daysInMonth y m := by omega
            have hnd : nextDay ⟨y, m, d⟩ = ⟨(nextYM y m).1, (nextYM y m).2, 1⟩ :=
              nextDay_eom y m d hm2 hdm
            have hlt' := nextYM_lt_change y m d hm2 hd4 hlt
            rw [gcs_old_hi y m d hlt hd4, candp_old_hi y m d hm1 hm2 hlt hd4, hnd,
              candp_old_lo (nextYM y m).1 (nextYM y m).2 1 hnx.1 hnx.2 hlt' (by omega),
              prevYM_nextYM y m ⟨hm1, hm2⟩]
            dsimp only
            exact ⟨date_le_same y m 4 d hd4,
              Date.le_of_lt _ _ (date_lt_of_nextYM y m d 3),
              Date.le_of_lt _ _ (date_lt_of_nextYM y m 4 3),
              Date.le_of_lt _ _ (date_lt_of_prevYM y m 4 3),
              Or.inl rfl⟩

/-- Witness for C3 at the concrete valid date 2025-10-04 (the change
date). -/
theorem c3_cycle_coverage_witness :
    (⟨2025, 10, 4⟩ : Date).Valid ∧
    getCycleStart ⟨2025, 10, 4⟩ ≤ ⟨2025, 10, 4⟩ ∧
    (⟨2025, 10, 4⟩ : Date) ≤ (getCurrentAndPreviousCycleDates ⟨2025, 10, 4⟩).current.stop :=
  ⟨by decide,
    (c3_cycle_coverage ⟨2025, 10, 4⟩ (by decide)).1,
    (c3_cycle_coverage ⟨2025, 10, 4⟩ (by decide)).2.1⟩

/-! ## Installment expansion lemmas -/

theorem addMonths1_gt (t : Date) : t < addMonths1 t := by
  obtain ⟨y, m, d⟩ := t
  have h := nextYM_gt y m
  simp only [addMonths1, Date.lt_def, Date.lt]
  rcases h with h | ⟨h1, h2⟩
  · exact Or.inl h
  · exact Or.inr ⟨h1, Or.inl h2⟩

theorem stepTs_date_gt (ts : Timestamp) : ts.date < (stepTs ts).date := by
  unfold stepTs
  split_ifs with h
  · exact h.2
  · exact addMonths1_gt ts.date

theorem ic_eq_icAux (a : ℚ) (n : ℕ) :
    ∀ (m j : ℕ) (cur : Timestamp), n - j = m →
      installmentCycles a n j cur = icAux a n m j cur := by
  intro m
  induction m with
  | zero =>
    intro j cur h
    rw [installmentCycles, if_neg (by omega)]
    rfl
  | succ m ih =>
    intro j cur h
    rw [installmentCycles, if_pos (by omega), ih (j + 1) (stepTs cur) (by omega)]
    rfl

theorem icAux_length (a : ℚ) (n : ℕ) :
    ∀ (m j : ℕ) (cur : Timestamp), (icAux a n m j cur).length = m + 1 := by
  intro m
  induction m with
  | zero => intro j cur; rfl
  | succ m ih => intro j cur; simp [icAux, ih]

theorem icAux_numbers (a : ℚ) (n : ℕ) :
    ∀ (m j : ℕ) (cur : Timestamp),
      (icAux a n m j cur).map (fun r => r.number) = List.range' j (m + 1) := by
  intro m
  induction m with
  | zero => intro j cur; rfl
  | succ m ih =>
    intro j cur
    rw [List.range'_succ]
    simp only [icAux, List.map_cons, List.cons.injEq]
    exact ⟨trivial, ih (j + 1) (stepTs cur)⟩

theorem icAux_amounts (a : ℚ) (n : ℕ) :
    ∀ (m j : ℕ) (cur : Timestamp),
      (icAux a n m j cur).map (fun r => r.amount) = List.replicate (m + 1) (a / n) := by
  intro m
  induction m with
  | zero => intro j cur; rfl
  | succ m ih =>
    intro j cur
    simp only [icAux, List.map_cons, List.replicate_succ, List.cons.injEq]
    exact ⟨trivial, ih (j + 1) (stepTs cur)⟩

theorem icAux_head (a : ℚ) (n m j : ℕ) (cur : Timestamp) :
    (icAux a n m j cur).head? = some ⟨a / n, j, cur⟩ := by
  cases m <;> rfl

theorem icAux_chain (a : ℚ) (n : ℕ) :
    ∀ (m j : ℕ) (cur : Timestamp),
      List.Chain' (fun r s : InstallmentRow => r.ts.date < s.ts.date) (icAux a n m j cur) := by
  intro m
  induction m with
  | zero => intro j cur; simp [icAux]
  | succ m ih =>
    intro j cur
    rw [icAux, List.chain'_cons']
    refine ⟨?_, ih (j + 1) (stepTs cur)⟩
    intro b hb
    rw [icAux_head] at hb
    simp only [Option.mem_def, Option.some.injEq] at hb
    rw [← hb]
    exact stepTs_date_gt cur

theorem icAux_getElem (a : ℚ) (n : ℕ) :
    ∀ (m j k : ℕ) (cur : Timestamp), k ≤ m →
      (icAux a n m j cur)[k]? = some ⟨a / n, j + k, stepTs^[k] cur⟩ := by
  intro m
  induction m with
  | zero =>
    intro j k cur hk
    obtain rfl : k = 0 := by omega
    rfl
  | succ m ih =>
    intro j k cur hk
    cases k with
    | zero =>
      rw [show icAux a n (m + 1) j cur =
          (⟨a / n, j, cur⟩ : InstallmentRow) :: icAux a n m (j + 1) (stepTs cur) from rfl,
        List.getElem?_cons_zero]
      simp
    | succ k' =>
      rw [show icAux a n (m + 1) j cur =
          (⟨a / n, j, cur⟩ : InstallmentRow) :: icAux a n m (j + 1) (stepTs cur) from rfl,
        List.getElem?_cons_succ, ih (j + 1) k' (stepTs cur) (by omega)]
      have hnum : j + 1 + k' = j + (k' + 1) := by omega
      rw [hnum, Function.iterate_succ_apply]

theorem expansion_getElem (a : ℚ) (ts : Timestamp) (n k : ℕ) (hn : 1 ≤ n) (hk : k < n) :
    (installmentExpansion a ts n)[k]? = some ⟨a / n, k + 1, stepTs^[k] ts⟩ := by
  unfold installmentExpansion
  rw [ic_eq_icAux a n (n - 1) 1 ts (by omega), icAux_getElem a n (n - 1) 1 k ts (by omega)]
  have : 1 + k = k + 1 := by omega
  rw [this]

theorem date_lt_1117_iff (t : Date) :
    (t < (⟨2025, 11, 17⟩ : Date)) ↔ t ≤ ⟨2025, 11, 16⟩ := by
  obtain ⟨y, m, d⟩ := t
  simp only [Date.lt_def, Date.lt, Date.le_def, Date.le]
  omega

/-- C8: for every record with amount `a` and `installments = n > 1`, the
recursive-CTE expansion produces exactly `n` placements, with
`installment_number` ranging 1..n, placement dates strictly increasing,
every placement amount equal to `a / n`, and the placement amounts summing
back to `a` within one minor unit (here the rational division is exact, so
the sum reconciles exactly); the itemized-listing projection carries
exactly the same rows. -/
theorem c8_amortization_reconciliation (a : ℚ) (ts : Timestamp) (n : ℕ) (hn : 1 < n) :
    (installmentExpansion a ts n).length = n ∧
    (installmentExpansion a ts n).map (fun r => r.number) = List.range' 1 n ∧
    List.Chain' (fun r s : InstallmentRow => r.ts.date < s.ts.date)
      (installmentExpansion a ts n) ∧
    (installmentExpansion a ts n).map (fun r => r.amount) = List.replicate n (a / n) ∧
    |((installmentExpansion a ts n).map (fun r => r.amount)).sum - a| ≤ 1 / 100 ∧
    ∀ desc : List Char, (itemizedRows desc a ts n).map Prod.snd = installmentExpansion a ts n := by
  have hm : n - 1 + 1 = n := by omega
  have he := ic_eq_icAux a n (n - 1) 1 ts (by omega)
  unfold installmentExpansion
  rw [he]
  refine ⟨by rw [icAux_length, hm], by rw [icAux_numbers, hm], icAux_chain a n (n - 1) 1 ts,
    by rw [icAux_amounts, hm], ?_, ?_⟩
  · rw [icAux_amounts, hm, List.sum_replicate, nsmul_eq_mul,
      mul_div_cancel₀ a (by exact_mod_cast (by omega : n ≠ 0))]
    simp
  · intro desc
    unfold itemizedRows installmentExpansion
    rw [he, List.map_map]
    exact List.map_id _

/-- Witness for C8: a 3-installment record of amount 100. -/
theorem c8_amortization_reconciliation_witness :
    (1 < 3) ∧ (installmentExpansion 100 ⟨⟨2025, 1, 15⟩, 0⟩ 3).length = 3 ∧
    |((installmentExpansion 100 ⟨⟨2025, 1, 15⟩, 0⟩ 3).map (fun r => r.amount)).sum - 100| ≤ 1 / 100 :=
  ⟨by omega, (c8_amortization_reconciliation 100 ⟨⟨2025, 1, 15⟩, 0⟩ 3 (by omega)).1,
    (c8_amortization_reconciliation 100 ⟨⟨2025, 1, 15⟩, 0⟩ 3 (by omega)).2.2.2.2.1⟩

theorem stepTs_eq (x : Timestamp) :
    stepTs x = if (⟨2025, 10, 4⟩ : Date) ≤ x.date ∧ x.date ≤ ⟨2025, 11, 16⟩
      then ⟨⟨2025, 11, 17⟩, x.tod⟩
      else ⟨addMonths1 x.date, x.tod⟩ := by
  unfold stepTs
  rcases Decidable.em ((⟨2025, 10, 4⟩ : Date) ≤ x.date ∧
      x.date ≤ ⟨2025, 11, 16⟩) with hw | hw
  · rw [if_pos ⟨hw.1, (date_lt_1117_iff _).2 hw.2⟩, if_pos hw]
  · rw [if_neg (fun hc => hw ⟨hc.1, (date_lt_1117_iff _).1 hc.2⟩), if_neg hw]

/-- C2 (amended): for consecutive placements `k` and `k+1` of an
installment-bearing record, placement `k+1` is one calendar month after
placement `k` unless placement `k`'s date lies in the inclusive window
[2025-10-04, 2025-11-16] (equivalently, `< 2025-11-17` as the SQL writes
it), in which case placement `k+1` is on 2025-11-17 — the day after the
transition end — with the time-of-day preserved. -/
theorem c2_installment_step (a : ℚ) (ts : Timestamp) (n k : ℕ) (hk : k + 1 < n)
    (r1 r2 : InstallmentRow)
    (h1 : (installmentExpansion a ts n)[k]? = some r1)
    (h2 : (installmentExpansion a ts n)[k + 1]? = some r2) :
    r2.ts = if (⟨2025, 10, 4⟩ : Date) ≤ r1.ts.date ∧ r1.ts.date ≤ ⟨2025, 11, 16⟩
      then ⟨⟨2025, 11, 17⟩, r1.ts.tod⟩
      else ⟨addMonths1 r1.ts.date, r1.ts.tod⟩ := by
  rw [expansion_getElem a ts n k (by omega) (by omega)] at h1
  rw [expansion_getElem a ts n (k + 1) (by omega) (by omega)] at h2
  have hr1 : r1 = ⟨a / n, k + 1, stepTs^[k] ts⟩ := by
    injection h1 with h
    exact h.symm
  have hr2 : r2 = ⟨a / n, k + 1 + 1, stepTs^[k + 1] ts⟩ := by
    injection h2 with h
    exact h.symm
  subst hr1
  subst hr2
  dsimp only
  rw [Function.iterate_succ_apply']
  exact stepTs_eq (stepTs^[k] ts)

/-- Witness for C2: the 6-installment purchase of 2025-10-04 has placement
1 on 2025-10-04 and placement 2 snapped to 2025-11-17. -/
theorem c2_installment_step_witness :
    (0 + 1 < 6) ∧
    (installmentExpansion 600 ⟨⟨2025, 10, 4⟩, 0⟩ 6)[0]? = some ⟨100, 1, ⟨⟨2025, 10, 4⟩, 0⟩⟩ ∧
    (installmentExpansion 600 ⟨⟨2025, 10, 4⟩, 0⟩ 6)[1]? = some ⟨100, 2, ⟨⟨2025, 11, 17⟩, 0⟩⟩ ∧
    (⟨100, 2, ⟨⟨2025, 11, 17⟩, 0⟩⟩ : InstallmentRow).ts =
      if (⟨2025, 10, 4⟩ : Date) ≤ (⟨100, 1, ⟨⟨2025, 10, 4⟩, 0⟩⟩ : InstallmentRow).ts.date ∧
          (⟨100, 1, ⟨⟨2025, 10, 4⟩, 0⟩⟩ : InstallmentRow).ts.date ≤ ⟨2025, 11, 16⟩
        then ⟨⟨2025, 11, 17⟩, (⟨100, 1, ⟨⟨2025, 10, 4⟩, 0⟩⟩ : InstallmentRow).ts.tod⟩
        else ⟨addMonths1 (⟨100, 1, ⟨⟨2025, 10, 4⟩, 0⟩⟩ : InstallmentRow).ts.date,
          (⟨100, 1, ⟨⟨2025, 10, 4⟩, 0⟩⟩ : InstallmentRow).ts.tod⟩ := by
  have e0 : (installmentExpansion 600 ⟨⟨2025, 10, 4⟩, 0⟩ 6)[0]? =
      some ⟨100, 1, ⟨⟨2025, 10, 4⟩, 0⟩⟩ := by
    rw [expansion_getElem 600 ⟨⟨2025, 10, 4⟩, 0⟩ 6 0 (by omega) (by omega)]
    norm_num
  have e1 : (installmentExpansion 600 ⟨⟨2025, 10, 4⟩, 0⟩ 6)[1]? =
      some ⟨100, 2, ⟨⟨2025, 11, 17⟩, 0⟩⟩ := by
    rw [expansion_getElem 600 ⟨⟨2025, 10, 4⟩, 0⟩ 6 1 (by omega) (by omega)]
    norm_num [Function.iterate_one]
    decide
  exact ⟨by omega, e0, e1,
    c2_installment_step 600 ⟨⟨2025, 10, 4⟩, 0⟩ 6 0 (by omega) _ _ e0 e1⟩

/-- Counterexample for C2 as stated: a 2-installment record timestamped
2025-11-16 lies outside the claim's half-open window [2025-10-04,
2025-11-16), so the claim demands a naive one-month advance to 2025-12-16;
the code instead snaps placement 2 to 2025-11-17. -/
theorem c2_counterexample :
    ¬ ((⟨2025, 10, 4⟩ : Date) ≤ ⟨2025, 11, 16⟩ ∧
        (⟨2025, 11, 16⟩ : Date) < ⟨2025, 11, 16⟩) ∧
    (installmentExpansion 200 ⟨⟨2025, 11, 16⟩, 0⟩ 2)[1]? =
      some ⟨100, 2, ⟨⟨2025, 11, 17⟩, 0⟩⟩ ∧
    (⟨2025, 11, 17⟩ : Date) ≠ addMonths1 ⟨2025, 11, 16⟩ := by
  refine ⟨by decide, ?_, by decide⟩
  rw [expansion_getElem 200 ⟨⟨2025, 11, 16⟩, 0⟩ 2 1 (by omega) (by omega)]
  norm_num [Function.iterate_one]
  decide

/-- C1: evaluation of the core value parser at the claim's inputs.  The two
positive examples parse as the claim says, but the sign of "-500,00" is
preserved, not normalized: the function returns -500.00 (in cents,
-50000), where the claim — and the repository's own test
`test_negative_becomes_positive` — require 500.00. -/
theorem c1_br_to_decimal_eval :
    br_to_decimal ("-500,00".toList) = some (-50000) ∧
    br_to_decimal ("R$ 1.234,56".toList) = some 123456 ∧
    br_to_decimal ("1234,56".toList) = some 123456 := by
  refine ⟨?_, ?_, ?_⟩ <;> decide

/-- C6: whenever the amount field of a line parses to a negative value and
the installments field parses to an integer greater than 1, `parse_message`
fails with a ValidationKind error and never returns an Expense (the
description check that may fire first is also ValidationKind). -/
theorem c6_negative_multi_installment (text : List Char) (v : ℤ) (n : ℕ)
    (hlen : (splitTop (pyStrip text)).length = 6)
    (hamt : br_to_decimal ((splitTop (pyStrip text)).getD 0 []) = some v)
    (hneg : v < 0)
    (hinst : parseInstallments (some ((splitTop (pyStrip text)).getD 5 [])) =
      Sum.inr (some n))
    (hn : 1 < n) :
    ∃ e, parse_message text = .failed e ∧ e.kind = .validation := by
  unfold parse_message
  dsimp only
  rw [if_neg (by rw [hlen]; omega)]
  by_cases hdesc : (pyStrip ((splitTop (pyStrip text)).getD 1 [])).isEmpty = true
  · rw [if_pos hdesc]
    exact ⟨_, rfl, rfl⟩
  · rw [if_neg hdesc, if_pos (by rw [hlen]; omega : 5 < (splitTop (pyStrip text)).length),
      hinst, hamt]
    dsimp only
    rw [if_pos ⟨hneg, by simp [multiInstallment, hn]⟩]
    exact ⟨_, rfl, rfl⟩

/-- Witness for C6 at the claim's concrete line. -/
theorem c6_negative_multi_installment_witness :
    ∃ e, parse_message ("-50,00 - X - Pix - Gastos Pessoais - Outros - 3".toList) = .failed e ∧
      e.kind = .validation :=
  c6_negative_multi_installment ("-50,00 - X - Pix - Gastos Pessoais - Outros - 3".toList)
    (-5000) 3 (by decide) (by decide) (by decide) (by decide) (by decide)

theorem splitAux_length_le (k : ℕ) : ∀ text : List Char, (splitAux k text).length ≤ k + 1 := by
  induction k with
  | zero => intro text; simp [splitAux]
  | succ k ih =>
    intro text
    unfold splitAux
    rcases h : scanField text with ⟨f, r⟩
    rcases r with _ | rest
    · simp
    · simpa using Nat.add_le_add_right (ih rest) 1

/-- C7: every input line splits into at most 6 fields (splitting stops
after the 5th delimiter), fewer than 5 fields is a FormatKind error, the
claim's example line parses to amount 35.50, description "Uber", no
installments, the same line with comma delimiters parses identically, and
a 3-field line fails with FormatKind. -/
theorem c7_split_fields :
    (∀ s : List Char, (splitTop s).length ≤ 6) ∧
    (∀ s : List Char, (splitTop (pyStrip s)).length < 5 →
      ∃ e, parse_message s = .failed e ∧ e.kind = .format) ∧
    parse_message ("35,50 - Uber - Pix - Gastos Pessoais - Transporte".toList) =
      .ok ⟨3550, "Uber".toList, "Pix".toList, "Gastos Pessoais".toList,
        "Transporte".toList, none⟩ ∧
    parse_message ("35,50, Uber, Pix, Gastos Pessoais, Transporte".toList) =
      parse_message ("35,50 - Uber - Pix - Gastos Pessoais - Transporte".toList) ∧
    (∃ e, parse_message ("35,50 - Uber - Pix".toList) = .failed e ∧ e.kind = .format) := by
  refine ⟨fun s => splitAux_length_le 5 s, fun s h => ?_, by decide, by decide, ?_⟩
  · unfold parse_message
    dsimp only
    rw [if_pos h]
    exact ⟨_, rfl, rfl⟩
  · exact ⟨⟨.format,
      "Lançamento Incorreto: Utilize o formato: Valor - Descrição - Método - Tag - Categoria [- Parcelas]".toList⟩,
      by decide, rfl⟩

/-- Witness for C7: the 3-field line has fewer than 5 fields and fails with
FormatKind. -/
theorem c7_split_fields_witness :
    (splitTop (pyStrip ("35,50 - Uber - Pix".toList))).length < 5 ∧
    ∃ e, parse_message ("35,50 - Uber - Pix".toList) = .failed e ∧ e.kind = .format :=
  ⟨by decide, c7_split_fields.2.1 ("35,50 - Uber - Pix".toList) (by decide)⟩

set_option maxHeartbeats 1000000 in
theorem pyLower_pyUpper (c : Char) : pyLower (pyUpper c) = pyLower c := by
  unfold pyUpper
  split <;> rfl

set_option maxHeartbeats 1000000 in
theorem pyLower_idem (c : Char) : pyLower (pyLower c) = pyLower c := by
  generalize hd : pyLower c = d
  unfold pyLower at hd
  split at hd <;> subst hd <;> first | rfl | (unfold pyLower; split <;> simp_all)

theorem pyCapitalize_lower (tok : List Char) :
    (pyCapitalize tok).map pyLower = tok.map pyLower := by
  cases tok with
  | nil => rfl
  | cons c r =>
    simp only [pyCapitalize, List.map_cons, pyLower_pyUpper, List.map_map,
      List.cons.injEq, true_and]
    exact List.map_congr_left fun x _ => pyLower_idem x

theorem skAux_flatten (l : List Char) : ∀ (mode : Bool) (cur : List Char),
    (skAux mode cur l).flatten = cur.reverse ++ l := by
  induction l with
  | nil =>
    intro mode cur
    cases mode <;> simp [skAux]
  | cons c rest ih =>
    intro mode cur
    cases mode <;> simp only [skAux] <;> split_ifs with h1 h2 <;>
      simp_all [List.flatten_cons, List.reverse_cons, List.append_assoc]

theorem titleizeGo_lower (toks : List (List Char)) : ∀ first : Bool,
    ((titleizeGo first toks).flatten).map pyLower = (toks.flatten).map pyLower := by
  induction toks with
  | nil => intro first; rfl
  | cons tok rest ih =>
    intro first
    unfold titleizeGo
    split_ifs with h1 h2 <;>
      simp only [List.flatten_cons, List.map_append, pyCapitalize_lower] <;>
      rw [ih _]

theorem titleizeGo_length (first : Bool) (toks : List (List Char)) :
    (titleizeGo first toks).length = toks.length := by
  induction toks generalizing first with
  | nil => rfl
  | cons tok rest ih =>
    unfold titleizeGo
    split_ifs <;> simp only [List.length_cons, ih]

theorem titleizeGo_getD (toks : List (List Char)) : ∀ (first : Bool) (i : ℕ),
    i < toks.length →
    (isSepTok (toks.getD i []) = true →
      (titleizeGo first toks).getD i [] = toks.getD i []) ∧
    (isSepTok (toks.getD i []) = false →
      (∀ j, j < i → isSepTok (toks.getD j []) = true) → first = true →
      (titleizeGo first toks).getD i [] = pyCapitalize (toks.getD i [])) ∧
    (isSepTok (toks.getD i []) = false →
      (first = false ∨ ∃ j, j < i ∧ isSepTok (toks.getD j []) = false) →
      (titleizeGo first toks).getD i [] =
        if LOWER_WORDS.contains (toks.getD i []) then toks.getD i []
        else pyCapitalize (toks.getD i [])) := by
  induction toks with
  | nil => intro first i hi; exact absurd hi (by simp)
  | cons tok rest ih =>
    intro first i hi
    by_cases hg : isSepTok tok = true
    · have hstep : titleizeGo first (tok :: rest) = tok :: titleizeGo first rest := by
        simp only [titleizeGo]
        rw [if_pos hg]
      cases i with
      | zero =>
        rw [hstep]
        simp only [List.getD_cons_zero]
        exact ⟨fun _ => trivial, fun hns _ _ => by simp [hg] at hns,
          fun hns _ => by simp [hg] at hns⟩
      | succ j =>
        rw [hstep]
        simp only [List.getD_cons_succ]
        have hj : j < rest.length := by simp only [List.length_cons] at hi; omega
        obtain ⟨ih1, ih2, ih3⟩ := ih first j hj
        refine ⟨ih1, ?_, ?_⟩
        · intro hns hall hf
          refine ih2 hns (fun j2 hj2 => ?_) hf
          have h := hall (j2 + 1) (Nat.succ_lt_succ hj2)
          simpa only [List.getD_cons_succ] using h
        · intro hns hor
          refine ih3 hns ?_
          rcases hor with hf | ⟨j2, hj2, hns2⟩
          · exact Or.inl hf
          · cases j2 with
            | zero => simp only [List.getD_cons_zero] at hns2; simp [hg] at hns2
            | succ j3 =>
              exact Or.inr ⟨j3, by omega, by
                simpa only [List.getD_cons_succ] using hns2⟩
    · have hstep : titleizeGo first (tok :: rest) =
          (if first || ! LOWER_WORDS.contains tok then pyCapitalize tok else tok) ::
            titleizeGo false rest := by
        simp only [titleizeGo]
        rw [if_neg hg]
        split_ifs <;> rfl
      cases i with
      | zero =>
        rw [hstep]
        simp only [List.getD_cons_zero]
        refine ⟨fun hs => absurd hs hg, ?_, ?_⟩
        · intro _ _ hf
          subst hf
          rw [if_pos (by simp)]
        · intro _ hor
          rcases hor with hf | ⟨j2, hj2, _⟩
          · subst hf
            by_cases hc : LOWER_WORDS.contains tok = true
            · simp [hc]
            · have hc2 : LOWER_WORDS.contains tok = false := by
                simpa using hc
              simp [hc2]
          · exact absurd hj2 (Nat.not_lt_zero j2)
      | succ j =>
        rw [hstep]
        simp only [List.getD_cons_succ]
        have hj : j < rest.length := by simp only [List.length_cons] at hi; omega
        obtain ⟨ih1, ih2, ih3⟩ := ih false j hj
        refine ⟨ih1, ?_, ?_⟩
        · intro hns hall _
          have h0 := hall 0 (Nat.succ_pos j)
          simp only [List.getD_cons_zero] at h0
          exact absurd h0 hg
        · intro hns _
          exact ih3 hns (Or.inl rfl)

/-- Counterexample for C9 as stated: `titleize_pt` strips its input first,
so for the input " a" the output "A" does not have the same total
character content as the input. -/
theorem c9_counterexample :
    titleize_pt (" a".toList) = "A".toList ∧
    (titleize_pt (" a".toList)).length ≠ (" a".toList).length := by
  decide

/-- C9 (amended): `titleize_pt(s)` is a reconstruction of `s.strip()` — it
has the same character content as the stripped input up to letter casing —
and on the token list the code builds (split on whitespace runs and single
hyphens with separators kept) the casing rule holds universally: separator
and blank tokens are preserved verbatim in place, the first word token is
always capitalized regardless of its content, and every later word token is
capitalized exactly when it is not one of the lowercase connectives of
`LOWER_WORDS`; in particular
`titleize_pt("gastos de casa") = "Gastos de Casa"` and
`titleize_pt("de casa") = "De Casa"`. -/
theorem c9_titleize_amended :
    (∀ s : List Char, (titleize_pt s).map pyLower = (pyStrip s).map pyLower) ∧
    (∀ s : List Char,
      titleize_pt s = (titleizeGo true (splitKeep ((pyStrip s).map pyLower))).flatten) ∧
    (∀ toks : List (List Char),
      (titleizeGo true toks).length = toks.length ∧
      ∀ i : ℕ, i < toks.length →
        (isSepTok (toks.getD i []) = true →
          (titleizeGo true toks).getD i [] = toks.getD i []) ∧
        (isSepTok (toks.getD i []) = false →
          (∀ j, j < i → isSepTok (toks.getD j []) = true) →
          (titleizeGo true toks).getD i [] = pyCapitalize (toks.getD i [])) ∧
        (isSepTok (toks.getD i []) = false →
          (∃ j, j < i ∧ isSepTok (toks.getD j []) = false) →
          (titleizeGo true toks).getD i [] =
            if LOWER_WORDS.contains (toks.getD i []) then toks.getD i []
            else pyCapitalize (toks.getD i []))) ∧
    titleize_pt ("gastos de casa".toList) = "Gastos de Casa".toList ∧
    titleize_pt ("de casa".toList) = "De Casa".toList := by
  refine ⟨fun s => ?_, fun s => rfl,
    fun toks => ⟨titleizeGo_length true toks, fun i hi => ?_⟩, by decide, by decide⟩
  · unfold titleize_pt splitKeep
    rw [titleizeGo_lower, skAux_flatten]
    simp only [List.reverse_nil, List.nil_append, List.map_map]
    exact List.map_congr_left fun x _ => pyLower_idem x
  · obtain ⟨h1, h2, h3⟩ := titleizeGo_getD toks true i hi
    exact ⟨h1, fun hns hall => h2 hns hall rfl, fun hns hex => h3 hns (Or.inr hex)⟩

/-- Witness for C9 (amended) at the input "de casa": its token list is
["de", " ", "casa"]; the first word token "de" is capitalized although it
is a connective, and the later word token "casa" falls under the
connective-test rule. -/
theorem c9_titleize_amended_witness :
    ((titleizeGo true (splitKeep ((pyStrip ("de casa".toList)).map pyLower))).getD 0 [] =
      pyCapitalize ((splitKeep ((pyStrip ("de casa".toList)).map pyLower)).getD 0 [])) ∧
    ((titleizeGo true (splitKeep ((pyStrip ("de casa".toList)).map pyLower))).getD 2 [] =
      if LOWER_WORDS.contains
          ((splitKeep ((pyStrip ("de casa".toList)).map pyLower)).getD 2 []) then
        (splitKeep ((pyStrip ("de casa".toList)).map pyLower)).getD 2 []
      else pyCapitalize ((splitKeep ((pyStrip ("de casa".toList)).map pyLower)).getD 2 [])) := by
  refine ⟨?_, ?_⟩
  · exact ((c9_titleize_amended.2.2.1
      (splitKeep ((pyStrip ("de casa".toList)).map pyLower))).2 0 (by decide)).2.1
      (by decide) (fun j hj => absurd hj (Nat.not_lt_zero j))
  · exact ((c9_titleize_amended.2.2.1
      (splitKeep ((pyStrip ("de casa".toList)).map pyLower))).2 2 (by decide)).2.2
      (by decide) ⟨0, by omega, by decide⟩

